import Mathlib

set_option maxRecDepth 8192

/-!
Verification of the `thousandcuts/logger` repository.

The repository contains two parallel implementations of the same design: the
flat module `src/logger.py` and the package `src/logger/{logger,sanic_logger}.py`.
The definitions below are a shallow embedding of those Python sources:

* text is modelled as `List Char`;
* `json.dumps(message, ensure_ascii=False, separators=(',',':'))` is modelled
  by `dumpsCompact`; the fallback `json.dumps({'error': ...})` with default
  arguments by `dumpsDefaultStr`;
* Python objects that can land in a record are modelled by `JVal`, with the
  constructor `JVal.jbad` standing for an object `json.dumps` cannot
  serialize (holding its `repr()` text);
* Python dicts are modelled as insertion-ordered association lists; dict
  assignment `d[k] = v`, which replaces the value in place keeping the key's
  position, is `dinsert`;
* code that can raise is modelled with `Option`/`Except`;
* `float` timestamps and durations are modelled as integers: no claim below
  depends on fractional values or rounding behaviour.
-/

abbrev Str := List Char

/-- `leadMatch l p` is true when `p` is a leading segment of `l`. -/
def leadMatch : Str → Str → Bool
  | _, [] => true
  | [], _ :: _ => false
  | c :: t, p :: q => c == p && leadMatch t q

/-- Python's substring test `pat in hay`. -/
def hasSub (hay pat : Str) : Bool :=
  match hay with
  | [] => pat.isEmpty
  | c :: t => leadMatch (c :: t) pat || hasSub t pat

/-- Python's `s.replace('\\"', '')`: delete every (leftmost-first,
non-overlapping) occurrence of the two-character sequence backslash,
double-quote. -/
def stripEscQuotes : Str → Str
  | [] => []
  | [c] => [c]
  | c :: c2 :: rest =>
    if c = '\\' ∧ c2 = '\x22' then stripEscQuotes rest
    else c :: stripEscQuotes (c2 :: rest)

/-- A scalar Python value as it appears inside a record dict. `jbad` is an
object that `json.dumps` cannot serialize; it carries its `repr()` text. -/
inductive JVal where
  | jstr (s : Str)
  | jint (n : Int)
  | jbool (b : Bool)
  | jnull
  | jbad (objRepr : Str)
deriving DecidableEq

open JVal

/-- First-match lookup in an insertion-ordered dict (Python `d[k]` / `d.get(k)`). -/
def dlookup {α β : Type} [DecidableEq α] (k : α) : List (α × β) → Option β
  | [] => none
  | kv :: t => if kv.1 = k then some kv.2 else dlookup k t

/-- Python dict assignment `d[k] = v`: replace the existing value in place
(keeping the key's position) or append the new pair at the end. -/
def dinsert {α β : Type} [DecidableEq α] : List (α × β) → α → β → List (α × β)
  | [], k, v => [(k, v)]
  | kv :: t, k, v => if kv.1 = k then (k, v) :: t else kv :: dinsert t k v

def digitChar (d : Nat) : Char := Char.ofNat (48 + d)

/-- Decimal digits of a natural number, most significant first.  The first
argument is fuel (any value above the number works); structural recursion on
the fuel keeps the definition kernel-reducible. -/
def natDigitsGo : Nat → Nat → Str
  | 0, _ => []
  | fuel + 1, m =>
    if m < 10 then [digitChar m] else natDigitsGo fuel (m / 10) ++ [digitChar (m % 10)]

def natDigits (n : Nat) : Str := natDigitsGo (n + 1) n

/-- Decimal rendering of a Python `int` (as `repr`/`json.dumps` print it). -/
def intChars (n : Int) : Str :=
  if n < 0 then '-' :: natDigits n.natAbs else natDigits n.natAbs

def hexDigitChar (n : Nat) : Char :=
  if n < 10 then Char.ofNat (48 + n) else Char.ofNat (87 + n)

/-- A `\uXXXX` JSON escape. -/
def uEsc (c : Char) : Str :=
  ['\\', 'u', hexDigitChar (c.toNat / 4096 % 16), hexDigitChar (c.toNat / 256 % 16),
    hexDigitChar (c.toNat / 16 % 16), hexDigitChar (c.toNat % 16)]

/-- Character escaping of `json.dumps(..., ensure_ascii=False)`. -/
def escChar (c : Char) : Str :=
  if c = '\x22' then ['\\', '\x22']
  else if c = '\\' then ['\\', '\\']
  else if c = '\n' then ['\\', 'n']
  else if c = '\t' then ['\\', 't']
  else if c = '\r' then ['\\', 'r']
  else if c.toNat = 8 then ['\\', 'b']
  else if c.toNat = 12 then ['\\', 'f']
  else if c.toNat < 32 then uEsc c
  else [c]

/-- Character escaping of `json.dumps` with the default `ensure_ascii=True`
(code points above U+FFFF, which need surrogate pairs, do not occur in any
value considered here). -/
def escAsciiChar (c : Char) : Str :=
  if c.toNat < 32 ∨ c = '\x22' ∨ c = '\\' then escChar c
  else if 126 < c.toNat then uEsc c
  else [c]

/-- A JSON string literal: quote, escaped characters, quote. -/
def dumpStrLit (esc : Char → Str) (s : Str) : Str :=
  '\x22' :: (s.map esc).flatten ++ ['\x22']

/-- Serialize one scalar; `none` models `TypeError` from `json.dumps` on a
non-serializable object. -/
def dumpVal (esc : Char → Str) : JVal → Option Str
  | jstr s => some (dumpStrLit esc s)
  | jint n => some (intChars n)
  | jbool b => some (if b then ("true".data) else ("false".data))
  | jnull => some ("null".data)
  | jbad _ => none

def joinSep (sep : Str) : List Str → Str
  | [] => []
  | [x] => x
  | x :: xs => x ++ sep ++ joinSep sep xs

def dumpEntry (esc : Char → Str) (kvSep : Str) (kv : Str × JVal) : Option Str :=
  (dumpVal esc kv.2).map fun v => dumpStrLit esc kv.1 ++ kvSep ++ v

/-- `json.dumps` of a dict with the given item and key separators. -/
def dumpsWith (itemSep kvSep : Str) (esc : Char → Str) (m : List (Str × JVal)) : Option Str :=
  (m.mapM (dumpEntry esc kvSep)).map fun es => '\x7b' :: joinSep itemSep es ++ ['\x7d']

/-- `json.dumps(message, ensure_ascii=False, separators=(',', ':'))`. -/
def dumpsCompact (m : List (Str × JVal)) : Option Str :=
  dumpsWith ([',']) ([':']) escChar m

/-- `json.dumps({k: v})` for a single string-valued entry, with the default
arguments (`ensure_ascii=True`, separators `', '`/`': '`); this serialization
never fails. -/
def dumpsDefaultStr (k v : Str) : Str :=
  '\x7b' :: dumpStrLit escAsciiChar k ++ ':' :: ' ' :: dumpStrLit escAsciiChar v ++ ['\x7d']

/-- Python `repr` of a scalar, as used by `str(message)` inside the f-string
(string values of the records considered contain no quote characters, so
`repr` quotes them with plain single quotes). -/
def pyRepr : JVal → Str
  | jstr s => '\'' :: s ++ ['\'']
  | jint n => intChars n
  | jbool b => if b then ("True".data) else ("False".data)
  | jnull => ("None".data)
  | jbad r => r

/-- Python `str`/`repr` of the record dict: `{'k': v, ...}`. -/
def pyReprDict (m : List (Str × JVal)) : Str :=
  '\x7b' :: joinSep ([',', ' ']) (m.map fun kv => '\'' :: kv.1 ++ '\'' :: ':' :: ' ' :: pyRepr kv.2)
    ++ ['\x7d']

/-- The literal text of the fallback error message in `json_string` (the
source spells it `serializabe`). -/
def errPrefix : Str := ("Log message not serializabe to json: ".data)

/-- `logger.json_string`: try compact JSON serialization; on failure emit the
fallback error object instead; in both cases post-process the text with
`.replace('\\"', '')`. -/
def json_string (message : List (Str × JVal)) : Str :=
  match dumpsCompact message with
  | some s => stripEscQuotes s
  | none => stripEscQuotes (dumpsDefaultStr ("error".data) (errPrefix ++ pyReprDict message))

/-!
A standard JSON parser for one-level objects of scalars (the only shape the
formatters produce), used to state the round-trip claims.  It follows the
usual prefix-consuming style: every piece returns the parsed value together
with the unconsumed tail.
-/

def isWs (c : Char) : Bool := c.toNat = 32 || c.toNat = 9 || c.toNat = 10 || c.toNat = 13

def isDigit (c : Char) : Bool := 48 ≤ c.toNat && c.toNat ≤ 57

def digitVal (c : Char) : Nat := c.toNat - 48

def skipWs : Str → Str
  | [] => []
  | c :: rest => if isWs c then skipWs rest else c :: rest

/-- Un-escape one character of a JSON string escape sequence (`\uXXXX`
sequences are not needed for any text considered here). -/
def unescChar (c : Char) : Option Char :=
  if c = '\x22' then some '\x22'
  else if c = '\\' then some '\\'
  else if c = '/' then some '/'
  else if c = 'n' then some '\n'
  else if c = 't' then some '\t'
  else if c = 'r' then some '\r'
  else if c = 'b' then some (Char.ofNat 8)
  else if c = 'f' then some (Char.ofNat 12)
  else none

/-- Parse the body of a JSON string literal (the opening quote already
consumed), up to and including the closing quote. -/
def parseStringBody : Str → Option (Str × Str)
  | [] => none
  | c :: rest =>
    if c = '\x22' then some ([], rest)
    else if c = '\\' then
      match rest with
      | [] => none
      | e :: rest2 =>
        match unescChar e, parseStringBody rest2 with
        | some u, some (s, r) => some (u :: s, r)
        | _, _ => none
    else
      match parseStringBody rest with
      | some (s, r) => some (c :: s, r)
      | none => none

def parseDigitsAcc : Nat → Str → Nat × Str
  | acc, [] => (acc, [])
  | acc, c :: rest =>
    if isDigit c then parseDigitsAcc (acc * 10 + digitVal c) rest else (acc, c :: rest)

def parseNat : Str → Option (Nat × Str)
  | [] => none
  | c :: rest => if isDigit c then some (parseDigitsAcc (digitVal c) rest) else none

def parseJVal (cs : Str) : Option (JVal × Str) :=
  match cs with
  | [] => none
  | c :: rest =>
    if c = '\x22' then (parseStringBody rest).map fun p => (jstr p.1, p.2)
    else if c = '-' then
      match parseNat rest with
      | some (n, r) => some (jint (-(n : Int)), r)
      | none => none
    else if isDigit c then
      match parseNat cs with
      | some (n, r) => some (jint (n : Int), r)
      | none => none
    else if leadMatch cs ("true".data) then some (jbool true, cs.drop 4)
    else if leadMatch cs ("false".data) then some (jbool false, cs.drop 5)
    else if leadMatch cs ("null".data) then some (jnull, cs.drop 4)
    else none

/-- Parse a nonempty comma-separated entry sequence followed by the closing
brace.  The fuel only bounds the number of entries; any value at least the
entry count works. -/
def parseEntries : Nat → Str → Option (List (Str × JVal) × Str)
  | 0, _ => none
  | fuel + 1, cs =>
    match skipWs cs with
    | [] => none
    | c :: rest =>
      if c = '\x22' then
        match parseStringBody rest with
        | none => none
        | some (k, r1) =>
          match skipWs r1 with
          | [] => none
          | c2 :: r2 =>
            if c2 = ':' then
              match parseJVal (skipWs r2) with
              | none => none
              | some (v, r3) =>
                match skipWs r3 with
                | [] => none
                | c3 :: r4 =>
                  if c3 = ',' then
                    match parseEntries fuel r4 with
                    | some (es, r) => some ((k, v) :: es, r)
                    | none => none
                  else if c3 = '\x7d' then some ([(k, v)], r4)
                  else none
            else none
      else none

def parseObj (cs : Str) : Option (List (Str × JVal) × Str) :=
  match skipWs cs with
  | [] => none
  | c :: rest =>
    if c = '\x7b' then
      match skipWs rest with
      | [] => none
      | c2 :: r2 =>
        if c2 = '\x7d' then some ([], r2)
        else parseEntries (rest.length + 1) rest
    else none

/-- Standard JSON parsing of a whole text as one object of scalars. -/
def parseJson (cs : Str) : Option (List (Str × JVal)) :=
  match parseObj cs with
  | some (m, rest) => if skipWs rest = [] then some m else none
  | none => none

/-!
Cleanliness: characters that JSON serialization passes through unchanged
(printable ASCII except the double quote and the backslash).  The round-trip
statements are restricted to records built from such characters.
-/

def cleanChar (c : Char) : Bool :=
  32 ≤ c.toNat && c.toNat ≤ 126 && !(c == '\x22') && !(c == '\\')

def cleanStr (s : Str) : Bool := s.all cleanChar

def cleanVal : JVal → Bool
  | jstr s => cleanStr s
  | jbad _ => false
  | _ => true

def cleanEntries (m : List (Str × JVal)) : Bool :=
  m.all fun kv => cleanStr kv.1 && cleanVal kv.2

/-- The serialized form of a clean scalar (what `dumpVal escChar` produces
when no character needs escaping). -/
def valCleanChars : JVal → Str
  | jstr s => '\x22' :: s ++ ['\x22']
  | jint n => intChars n
  | jbool b => if b then ("true".data) else ("false".data)
  | jnull => ("null".data)
  | jbad _ => []

def entryCleanChars (kv : Str × JVal) : Str :=
  '\x22' :: kv.1 ++ '\x22' :: ':' :: valCleanChars kv.2

def entriesCleanChars : List (Str × JVal) → Str
  | [] => []
  | [e] => entryCleanChars e
  | e :: t => entryCleanChars e ++ ',' :: entriesCleanChars t

def objCleanChars (m : List (Str × JVal)) : Str :=
  '\x7b' :: entriesCleanChars m ++ ['\x7d']

/-- `true` when the text contains no backslash (so the `.replace('\\"','')`
post-pass is the identity on it). -/
def noBS (l : Str) : Bool := l.all fun c => !(c == '\\')

/-- `true` when the text does not start with a decimal digit (so a number
parse that stops here consumed the whole numeral). -/
def noDigitHead : Str → Bool
  | [] => true
  | c :: _ => !isDigit c

/-!
The `JSONFormatter` of `src/logger/logger.py` (identical in `src/logger.py`).

A `logging.LogRecord` is modelled by the attributes the formatter reads.
`msg` holds the already-rendered result of `record.getMessage()` (the
formatter's default `formatMessage` with format `'%(message)s'` returns it
unchanged).  `exc_text` models the truthiness-guarded exception text (the
`exc_info`/`exc_text` caching only computes this text); `stack_info`
likewise.  `extras` are the attributes the caller attached through
`extra={...}`: they sit at the end of `record.__dict__` and are also what
`getattr(record, 'type', 'log')` and `record.event_type` read.  `created`
holds the `@timestamp` text: the source maps the float `record.created`
through a fixed pure `strftime` rendering, which no claim inspects, so the
record carries the rendered text directly.
-/

structure LogRecord where
  name : Str
  levelname : Str
  module : Str
  msg : Str
  filename : Option Str
  lineno : Nat
  funcName : Option Str
  created : Str
  exc_text : Option Str
  stack_info : Option Str
  extras : List (Str × JVal)
deriving DecidableEq

def endsNl (s : Str) : Bool := s.getLast? == some '\n'

/-- `if msg[-1:] != '\n': msg += '\n'` followed by `msg += block`. -/
def appendBlock (msg block : Str) : Str :=
  (if endsNl msg then msg else msg ++ ['\n']) ++ block

/-- Lines 14-28 of `JSONFormatter.format`: the rendered message with the
exception text and the stack text appended, each preceded by a newline
guard. -/
def buildMsg (r : LogRecord) : Str :=
  let m1 := match r.exc_text with
    | some e => appendBlock r.msg e
    | none => r.msg
  match r.stack_info with
  | some s => appendBlock m1 s
  | none => m1

/-- `getattr(record, 'type', 'log')`: the caller-supplied `type` extra, or
the string `'log'`. -/
def recType (r : LogRecord) : JVal :=
  (dlookup ("type".data) r.extras).getD (jstr ("log".data))

/-- Model of `{f for f in dir(record) if not f.startswith('__')}` for a
record that has already passed line 14 of `format`: the class methods and
standard instance attributes of `logging.LogRecord` (always present), the
`message` attribute just assigned, plus the record's extra attributes. -/
def dirBaseFields : List Str :=
  [("name".data), ("msg".data), ("args".data), ("levelname".data), ("levelno".data),
    ("pathname".data), ("filename".data), ("module".data), ("exc_info".data),
    ("exc_text".data), ("stack_info".data), ("lineno".data), ("funcName".data),
    ("created".data), ("msecs".data), ("relativeCreated".data), ("thread".data),
    ("threadName".data), ("processName".data), ("process".data), ("getMessage".data),
    ("message".data)]

def computeFields (r : LogRecord) : List Str :=
  dirBaseFields ++ r.extras.map Prod.fst

/-- The loop `for key, value in record.__dict__.items(): if key not in
LogRecordFields: message[key] = value`.  The standard attribute names are in
every memoized field set (`dirBaseFields` is a subset of any `dir`), so the
loop only ever copies extra attributes; it is modelled as a fold over them. -/
def mergeExtras (fields : List Str) (d : List (Str × JVal)) (l : List (Str × JVal)) :
    List (Str × JVal) :=
  l.foldl (fun d kv => if kv.1 ∈ fields then d else dinsert d kv.1 kv.2) d

/-- `add_msg_type_properties`.  `none` models the `AttributeError` raised by
`record.event_type` when a record claims `type == 'event'` without carrying
an `event_type` attribute. -/
def add_msg_type_properties (message : List (Str × JVal)) (r : LogRecord) :
    Option (List (Str × JVal)) :=
  let t := (dlookup ("type".data) message).getD jnull
  if t = jstr ("log".data) then
    let m1 := match r.funcName with
      | some f => dinsert message ("function".data) (jstr f)
      | none => message
    let m2 := match r.filename with
      | some fn =>
        dinsert m1 ("file".data)
          (jstr (if r.lineno ≠ 0 then fn ++ ':' :: natDigits r.lineno else fn))
      | none => m1
    some m2
  else if t = jstr ("event".data) then
    match dlookup ("event_type".data) r.extras with
    | some ev => some (dinsert message ("event_type".data) ev)
    | none => none
  else some message

/-- `add_task_properties`: read the ambient task context, if any, and attach
`request_id`/`session_id` (empty string defaults).  The `try/except: pass`
around the task lookup, and the no-current-task / no-`context`-attribute
cases, are all the `none` branch. -/
def add_task_properties (message : List (Str × JVal)) (ctx : Option (List (Str × JVal))) :
    List (Str × JVal) :=
  match ctx with
  | some c =>
    dinsert
      (dinsert message ("request_id".data) ((dlookup ("req_id".data) c).getD (jstr [])))
      ("session_id".data) ((dlookup ("session_id".data) c).getD (jstr []))
  | none => message

/-- The structured record `JSONFormatter.format` builds before serialization,
for a given memoized field set `fields` and ambient context `ctx`. -/
def buildRecordW (fields : List Str) (ctx : Option (List (Str × JVal))) (r : LogRecord) :
    Option (List (Str × JVal)) :=
  let base : List (Str × JVal) :=
    [(("@timestamp".data), jstr r.created), (("level".data), jstr r.levelname),
      (("module".data), jstr r.module), (("message".data), jstr (buildMsg r)),
      (("type".data), recType r), (("logger".data), jstr r.name)]
  let merged := mergeExtras fields base r.extras
  (add_msg_type_properties merged r).map (add_task_properties · ctx)

/-- `JSONFormatter.format` with its per-instance `LogRecordFields`
memoization made explicit: `st` is the memoized field set (`none` before the
first record), the result pairs the serialized text (`none` models a raised
`AttributeError`) with the state after the call. -/
def JSONFormatter.format (st : Option (List Str)) (ctx : Option (List (Str × JVal)))
    (r : LogRecord) : Option Str × Option (List Str) :=
  let fields := st.getD (computeFields r)
  ((buildRecordW fields ctx r).map json_string, some fields)

/-!
The noise filters of `src/logger/sanic_logger.py` (identical in
`src/logger.py`).  A record is modelled by the two attributes the filters
touch: `request` (`none` when the record has no `request` attribute, i.e.
an application log record) and `msg` (`none` when `record.msg` is not a
string, e.g. the `None` message of the access records).  A filter returning
`Except.error` models an uncaught Python exception escaping the predicate.
-/

structure ReqObj where
  path : Option Str
deriving DecidableEq

structure FilterRecord where
  request : Option ReqObj
  msg : Option Str
deriving DecidableEq

inductive PyErr where
  | attributeError
  | typeError
deriving DecidableEq

def healthzPath : Str := ("/healthz".data)

/-- `NoHealthzFilter.filter`: `'/healthz' not in getattr(record.request,
'path', record.msg)`.  Reading `record.request` on a record without that
attribute raises `AttributeError`; when the request lacks a `path` the
default falls back to `record.msg`, and a non-string `msg` raises
`TypeError` from the `in` test. -/
def NoHealthzFilter.filter (rec : FilterRecord) : Except PyErr Bool :=
  match rec.request with
  | none => Except.error PyErr.attributeError
  | some req =>
    match req.path with
    | some p => Except.ok (!(hasSub p healthzPath))
    | none =>
      match rec.msg with
      | some m => Except.ok (!(hasSub m healthzPath))
      | none => Except.error PyErr.typeError

def keepAliveText : Str := ("KeepAlive Timeout".data)

/-- `KeepAliveTimeoutFilter.filter`: `'KeepAlive Timeout' not in record.msg`. -/
def KeepAliveTimeoutFilter.filter (rec : FilterRecord) : Except PyErr Bool :=
  match rec.msg with
  | some m => Except.ok (!(hasSub m keepAliveText))
  | none => Except.error PyErr.typeError

/-!
The task-context store (`_task_factory`, `set_context_property`,
`get_context_property`).  Python object identity is made explicit with a
heap: `store` is the heap of context dicts, `tasks` maps a task id to
`some (some r)` (task exists and its `context` attribute references heap
cell `r`), `some none` (task exists, no `context` attribute) or is absent
(no such task / `current_task()` returned `None`).
-/

abbrev Ctx := List (Str × JVal)

structure TaskSys where
  store : List Ctx
  tasks : List (Nat × Option Nat)
deriving DecidableEq

def taskAttr (sys : TaskSys) (t : Nat) : Option (Option Nat) :=
  dlookup t sys.tasks

/-- In-place update of one heap cell. -/
def modAt {α : Type} : List α → Nat → (α → α) → List α
  | [], _, _ => []
  | x :: t, 0, f => f x :: t
  | x :: t, n + 1, f => x :: modAt t n f

/-- `_task_factory`: create `child`; if the current task `parent` has a
`context` attribute, the child's `context` attribute is set to the very same
object (the same heap reference, not a copy). -/
def _task_factory (sys : TaskSys) (parent child : Nat) : TaskSys :=
  let childCtx := match taskAttr sys parent with
    | some (some r) => some r
    | _ => none
  { sys with tasks := (child, childCtx) :: sys.tasks }

/-- `set_context_property`: mutate the current task's context dict in place;
if the task has no `context` attribute yet, attach a fresh one-entry dict;
if there is no current task, log an error and do nothing. -/
def set_context_property (sys : TaskSys) (t : Nat) (k : Str) (v : JVal) : TaskSys :=
  match taskAttr sys t with
  | some (some r) => { sys with store := modAt sys.store r (fun c => dinsert c k v) }
  | some none =>
    { store := sys.store ++ [[(k, v)]], tasks := dinsert sys.tasks t (some sys.store.length) }
  | none => sys

/-- `get_context_property`: `current_task.context.get(name)` when the task
and its context exist, `None` otherwise. -/
def get_context_property (sys : TaskSys) (t : Nat) (k : Str) : Option JVal :=
  match taskAttr sys t with
  | some (some r) => (sys.store[r]?).bind (dlookup k)
  | _ => none

/-!
The access-log emission (`log_json_post`) of both variants, and the
`JSONReqFormatter`.
-/

/-- Python truthiness of a scalar, as used by `x or default`. -/
def pyTruthy : JVal → Bool
  | jstr s => !s.isEmpty
  | jint n => !(n == 0)
  | jbool b => b
  | jnull => false
  | jbad _ => true

/-- Python `x or d` for an optional scalar (`None` and falsy values both
fall back to `d`). -/
def pyOr (v : Option JVal) (d : JVal) : JVal :=
  match v with
  | some x => if pyTruthy x then x else d
  | none => d

def INFO : Nat := 20
def WARNING : Nat := 30

/-- `level = logging.INFO if 0 < status_code < 400 else logging.WARNING`. -/
def accessLevel (status : Int) : Nat :=
  if 0 < status ∧ status < 400 then INFO else WARNING

structure EmittedAccess where
  req_id : JVal
  time_taken : Int
  level : Nat
  status : Int
deriving DecidableEq

/-- `log_json_post` of `src/logger/sanic_logger.py`:
`req_id = get_context_property('req_id') or 'unknown'` and
`time_taken = time.perf_counter() - (get_context_property('req_start') or -1)`.
`none` models the `TypeError` raised by the subtraction if the stored
`req_start` is not a number. -/
def sanic_log_json_post (sys : TaskSys) (t : Nat) (perfNow status : Int) :
    Option EmittedAccess :=
  match pyOr (get_context_property sys t ("req_start".data)) (jint (-1)) with
  | jint x =>
    some { req_id := pyOr (get_context_property sys t ("req_id".data)) (jstr ("unknown".data)),
           time_taken := perfNow - x,
           level := accessLevel status,
           status := status }
  | _ => none

/-- `log_json_post` of the flat `src/logger.py`: defaults `req_id =
'unknown'`, `time_taken = -1`, overridden when the current task has a
`context` attribute by `context['req_id']` and `perf_counter() -
context['req_start']` (a `KeyError` on a missing key, or a `TypeError` on a
non-numeric start, is `none`). -/
def flat_log_json_post (ctx : Option Ctx) (perfNow status : Int) :
    Option EmittedAccess :=
  match ctx with
  | none =>
    some { req_id := jstr ("unknown".data), time_taken := -1,
           level := accessLevel status, status := status }
  | some c =>
    match dlookup ("req_id".data) c, dlookup ("req_start".data) c with
    | some rid, some (jint s) =>
      some { req_id := rid, time_taken := perfNow - s,
             level := accessLevel status, status := status }
    | _, _ => none

/-!
`JSONReqFormatter.format`.  A sanic request is modelled by the attributes
the formatter reads; `response = none` is the websocket case (`record.response
is None`); `body_len = none` models a response object without a `body`
attribute, `some n` a materialized body of `n` bytes.  `time` (the elapsed
seconds float) is modelled as an integer; `round(..., 2)` is not modelled
and no claim depends on it.
-/

structure SanicRequest where
  method : Str
  path : Str
  ip : Str
  port : Nat
  host : Str
  headers : List (Str × Str)
deriving DecidableEq

structure SanicResponse where
  status : Int
  body_len : Option Nat
deriving DecidableEq

structure AccessRecord where
  request : SanicRequest
  response : Option SanicResponse
  time : Int
  created : Str
  levelname : Str
  name : Str
deriving DecidableEq

/-- The dict `JSONReqFormatter.format` builds before serialization. -/
def JSONReqFormatter.formatDict (ctx : Option Ctx) (rec : AccessRecord) :
    List (Str × JVal) :=
  let req := rec.request
  let host := if req.headers.isEmpty then req.host
    else (dlookup ("X-Forwarded-For".data) req.headers).getD req.host
  let statusChars := match rec.response with
    | some resp => intChars resp.status
    | none => []
  let msg := req.method ++ ' ' :: req.path ++ ' ' :: statusChars
  let base : List (Str × JVal) :=
    [(("@timestamp".data), jstr rec.created), (("level".data), jstr rec.levelname),
      (("message".data), jstr msg), (("type".data), jstr ("access".data)),
      (("method".data), jstr req.method), (("path".data), jstr req.path),
      (("remote".data), jstr (req.ip ++ ':' :: natDigits req.port)),
      (("host".data), jstr host), (("request_ms".data), jint rec.time),
      (("user_agent".data),
        match dlookup ("user-agent".data) req.headers with
        | some ua => jstr ua
        | none => jnull),
      (("logger".data), jstr rec.name)]
  let withResp := match rec.response with
    | some resp =>
      let m1 := dinsert base ("status_code".data) (jint resp.status)
      match resp.body_len with
      | some n => dinsert m1 ("length".data) (jint (n : Int))
      | none => dinsert m1 ("length".data) (jint (-1))
    | none => dinsert base ("type".data) (jstr ("ws_access".data))
  add_task_properties withResp ctx

def JSONReqFormatter.format (ctx : Option Ctx) (rec : AccessRecord) : Str :=
  json_string (JSONReqFormatter.formatDict ctx rec)

/-- Remove the `@timestamp` entries of a record dict; two dicts with the same
`dropTs` image are "identical except for the `@timestamp` field". -/
def dropTs (d : List (Str × JVal)) : List (Str × JVal) :=
  d.filter fun kv => !(kv.1 == ("@timestamp".data))


/-!
Concrete inputs used by the counterexamples and witnesses below.
-/

/-- A plain application log record. -/
def plainRec : LogRecord :=
  { name := ("root".data), levelname := ("INFO".data), module := ("app".data),
    msg := ("hello".data), filename := some ("app.py".data), lineno := 12,
    funcName := some ("main".data), created := ("2024-01-01T00:00:00.000000Z".data),
    exc_text := none, stack_info := none, extras := [] }

/-- The same record carrying one caller-supplied extra field. -/
def customRec : LogRecord := { plainRec with extras := [(("custom".data), jint 1)] }

/-- A record whose caller-supplied extra collides with the canonical `logger`
key. -/
def spoofRec : LogRecord := { plainRec with extras := [(("logger".data), jstr ("spoof".data))] }

/-- The request of the websocket record below. -/
def wsReq : SanicRequest :=
  { method := ("GET".data), path := ("/ws".data), ip := ("1.2.3.4".data),
    port := 80, host := ("h".data), headers := [] }

/-- A websocket access record (`record.response is None`). -/
def wsRec : AccessRecord :=
  { request := wsReq, response := none, time := 3, created := ("T".data),
    levelname := ("INFO".data), name := ("sanic.access".data) }

/-- A record dict containing a value `json.dumps` cannot serialize. -/
def badMsg : List (Str × JVal) := [(("x".data), jbad ("<object>".data))]

/-- A record dict whose message value contains double-quote characters. -/
def quoteMsg : List (Str × JVal) :=
  [(("message".data), jstr ['s', 'a', 'y', ' ', '\x22', 'h', 'i', '\x22'])]

/-!
## Lemmas: dicts
-/

theorem dlookup_dinsert_self {α β : Type} [DecidableEq α] (d : List (α × β)) (k : α) (v : β) :
    dlookup k (dinsert d k v) = some v := by
  induction d with
  | nil => simp [dinsert, dlookup]
  | cons kv t ih =>
    rcases kv with ⟨a, b⟩
    by_cases hak : a = k
    · subst hak
      simp [dinsert, dlookup]
    · simp [dinsert, hak, dlookup, ih]

theorem dlookup_dinsert_ne {α β : Type} [DecidableEq α] (d : List (α × β)) (k k' : α) (v : β)
    (h : k ≠ k') : dlookup k' (dinsert d k v) = dlookup k' d := by
  induction d with
  | nil => simp [dinsert, dlookup, h]
  | cons kv t ih =>
    rcases kv with ⟨a, b⟩
    by_cases hak : a = k
    · subst hak
      simp [dinsert, dlookup, h]
    · simp [dinsert, hak, dlookup, ih]

theorem dlookup_mergeExtras_skip (fields : List Str) (l : List (Str × JVal)) :
    ∀ (d : List (Str × JVal)) (k : Str), k ∈ fields →
      dlookup k (mergeExtras fields d l) = dlookup k d := by
  induction l with
  | nil => intro d k _; simp [mergeExtras]
  | cons kv t ih =>
    intro d k hk
    by_cases hf : kv.1 ∈ fields
    · simpa [mergeExtras, hf] using ih d k hk
    · have hne : kv.1 ≠ k := fun h => hf (h ▸ hk)
      simpa [mergeExtras, hf] using
        (ih (dinsert d kv.1 kv.2) k hk).trans (dlookup_dinsert_ne d kv.1 k kv.2 hne)

theorem dlookup_mergeExtras_notmem (fields : List Str) (l : List (Str × JVal)) :
    ∀ (d : List (Str × JVal)) (k : Str), k ∉ l.map Prod.fst →
      dlookup k (mergeExtras fields d l) = dlookup k d := by
  induction l with
  | nil => intro d k _; simp [mergeExtras]
  | cons kv t ih =>
    intro d k hk
    have hne : kv.1 ≠ k := fun h =>
      hk (h ▸ List.mem_map_of_mem Prod.fst (List.mem_cons_self kv t))
    have hkt : k ∉ t.map Prod.fst := fun h =>
      hk (by rw [List.map_cons]; exact List.mem_cons_of_mem _ h)
    by_cases hf : kv.1 ∈ fields
    · simpa [mergeExtras, hf] using ih d k hkt
    · simpa [mergeExtras, hf] using
        (ih (dinsert d kv.1 kv.2) k hkt).trans (dlookup_dinsert_ne d kv.1 k kv.2 hne)

theorem dlookup_mergeExtras_mem (fields : List Str) (l : List (Str × JVal)) :
    ∀ (d : List (Str × JVal)) (k : Str) (v : JVal), (k, v) ∈ l →
      (l.map Prod.fst).Nodup → k ∉ fields →
      dlookup k (mergeExtras fields d l) = some v := by
  induction l with
  | nil =>
    intro d k v hm _ _
    exact absurd hm (List.not_mem_nil _)
  | cons kv t ih =>
    intro d k v hm hnd hkf
    rw [List.map_cons, List.nodup_cons] at hnd
    rcases List.mem_cons.mp hm with hh | ht
    · subst hh
      have hkt : k ∉ t.map Prod.fst := hnd.1
      have hstep : mergeExtras fields d ((k, v) :: t) = mergeExtras fields (dinsert d k v) t := by
        simp [mergeExtras, hkf]
      rw [hstep, dlookup_mergeExtras_notmem fields t (dinsert d k v) k hkt,
        dlookup_dinsert_self]
    · by_cases hf : kv.1 ∈ fields
      · have hstep : mergeExtras fields d (kv :: t) = mergeExtras fields d t := by
          simp [mergeExtras, hf]
        rw [hstep]
        exact ih d k v ht hnd.2 hkf
      · have hstep : mergeExtras fields d (kv :: t) =
            mergeExtras fields (dinsert d kv.1 kv.2) t := by
          simp [mergeExtras, hf]
        rw [hstep]
        exact ih (dinsert d kv.1 kv.2) k v ht hnd.2 hkf

/-!
## Lemmas: the `.replace('\\"','')` post-pass and clean serialization
-/

theorem noBS_append (a b : Str) : noBS (a ++ b) = (noBS a && noBS b) := by
  simp [noBS, List.all_append]

theorem stripEscQuotes_of_noBS : ∀ l : Str, noBS l = true → stripEscQuotes l = l := by
  intro l
  induction l using stripEscQuotes.induct with
  | case1 => intro _; rfl
  | case2 c => intro _; rfl
  | case3 c c2 rest h ih =>
    intro hbs
    exfalso
    have : (c == '\\') = true := by simp [h.1]
    simp [noBS, h.1] at hbs
  | case4 c c2 rest h ih =>
    intro hbs
    have h2 : noBS (c2 :: rest) = true := by
      simp [noBS] at hbs ⊢
      exact ⟨hbs.2.1, hbs.2.2⟩
    simp [stripEscQuotes, h, ih h2]

theorem cleanChar_escChar {c : Char} (h : cleanChar c = true) : escChar c = [c] := by
  simp [cleanChar] at h
  obtain ⟨⟨⟨h32, h126⟩, hq⟩, hbs⟩ := h
  have hq' : c ≠ '\x22' := by simpa using hq
  have hbs' : c ≠ '\\' := by simpa using hbs
  have hn : c ≠ '\n' := by intro he; subst he; simp at h32
  have ht : c ≠ '\t' := by intro he; subst he; simp at h32
  have hr : c ≠ '\r' := by intro he; subst he; simp at h32
  have h8 : c.toNat ≠ 8 := by omega
  have h12 : c.toNat ≠ 12 := by omega
  have hlt : ¬ c.toNat < 32 := by omega
  simp [escChar, hq', hbs', hn, ht, hr, h8, h12, hlt]

theorem cleanChar_escAsciiChar {c : Char} (h : cleanChar c = true) : escAsciiChar c = [c] := by
  simp [cleanChar] at h
  obtain ⟨⟨⟨h32, h126⟩, hq⟩, hbs⟩ := h
  have hq' : c ≠ '\x22' := by simpa using hq
  have hbs' : c ≠ '\\' := by simpa using hbs
  have hlt : ¬ c.toNat < 32 := by omega
  have hgt : ¬ 126 < c.toNat := by omega
  simp [escAsciiChar, hlt, hq', hbs', hgt]

theorem flatten_map_esc {esc : Char → Str} (hesc : ∀ c, cleanChar c = true → esc c = [c]) :
    ∀ s : Str, cleanStr s = true → (s.map esc).flatten = s := by
  intro s
  induction s with
  | nil => intro _; rfl
  | cons c t ih =>
    intro hc
    rw [cleanStr, List.all_cons, Bool.and_eq_true] at hc
    simp only [List.map_cons, List.flatten_cons, hesc c hc.1]
    rw [ih hc.2]
    rfl

theorem dumpStrLit_clean {esc : Char → Str} (hesc : ∀ c, cleanChar c = true → esc c = [c])
    (s : Str) (h : cleanStr s = true) : dumpStrLit esc s = '\x22' :: s ++ ['\x22'] := by
  simp [dumpStrLit, flatten_map_esc hesc s h]

theorem dumpVal_clean (v : JVal) (h : cleanVal v = true) :
    dumpVal escChar v = some (valCleanChars v) := by
  cases v with
  | jstr s => simp [dumpVal, valCleanChars,
      dumpStrLit_clean (fun c hc => cleanChar_escChar hc) s (by simpa [cleanVal] using h)]
  | jint n => rfl
  | jbool b => rfl
  | jnull => rfl
  | jbad r => simp [cleanVal] at h

theorem dumpEntry_clean (kv : Str × JVal) (hk : cleanStr kv.1 = true)
    (hv : cleanVal kv.2 = true) :
    dumpEntry escChar ([':']) kv = some (entryCleanChars kv) := by
  simp [dumpEntry, dumpVal_clean kv.2 hv, entryCleanChars,
    dumpStrLit_clean (fun c hc => cleanChar_escChar hc) kv.1 hk]

theorem mapM_dumpEntry_clean : ∀ m : List (Str × JVal), cleanEntries m = true →
    m.mapM (dumpEntry escChar ([':'])) = some (m.map entryCleanChars) := by
  intro m
  induction m with
  | nil => intro _; rfl
  | cons kv t ih =>
    intro hc
    rw [cleanEntries, List.all_cons, Bool.and_eq_true] at hc
    obtain ⟨h1, h2⟩ := hc
    rw [Bool.and_eq_true] at h1
    rw [List.mapM_cons, dumpEntry_clean kv h1.1 h1.2, ih h2]
    rfl

theorem joinSep_comma_entries : ∀ m : List (Str × JVal),
    joinSep ([',']) (m.map entryCleanChars) = entriesCleanChars m := by
  intro m
  induction m with
  | nil => rfl
  | cons e t ih =>
    cases t with
    | nil => rfl
    | cons e2 t2 =>
      have h1 : entriesCleanChars (e :: e2 :: t2) =
          entryCleanChars e ++ ',' :: entriesCleanChars (e2 :: t2) := rfl
      have h2 : joinSep ([',']) (entryCleanChars e :: entryCleanChars e2 ::
            List.map entryCleanChars t2) =
          entryCleanChars e ++ [','] ++
            joinSep ([',']) (entryCleanChars e2 :: List.map entryCleanChars t2) := rfl
      simp only [List.map_cons] at ih ⊢
      rw [h1, h2, ih]
      simp

theorem dumpsCompact_clean (m : List (Str × JVal)) (h : cleanEntries m = true) :
    dumpsCompact m = some (objCleanChars m) := by
  rw [dumpsCompact, dumpsWith, mapM_dumpEntry_clean m h]
  have hmap : Option.map (fun es => '\x7b' :: joinSep ([',']) es ++ ['\x7d'])
      (some (m.map entryCleanChars)) =
      some ('\x7b' :: joinSep ([',']) (m.map entryCleanChars) ++ ['\x7d']) := rfl
  rw [hmap, joinSep_comma_entries m]
  rfl

/-!
## Lemmas: decimal digits
-/

theorem digitVal_digitChar {m : Nat} (h : m < 10) : digitVal (digitChar m) = m := by
  interval_cases m <;> decide

theorem isDigit_digitChar {m : Nat} (h : m < 10) : isDigit (digitChar m) = true := by
  interval_cases m <;> decide

theorem natDigitsGo_ne_nil (fuel m : Nat) (h : m < fuel) : natDigitsGo fuel m ≠ [] := by
  cases fuel with
  | zero => omega
  | succ f =>
    rw [natDigitsGo]
    by_cases h10 : m < 10 <;> simp [h10]

theorem natDigitsGo_digits : ∀ fuel m, m < fuel → ∀ c ∈ natDigitsGo fuel m, isDigit c = true := by
  intro fuel
  induction fuel with
  | zero => intro m h; omega
  | succ f ih =>
    intro m h c hc
    rw [natDigitsGo] at hc
    by_cases h10 : m < 10
    · simp [h10] at hc
      subst hc
      exact isDigit_digitChar h10
    · simp [h10] at hc
      rcases hc with hc | hc
      · have hdiv : m / 10 < m := Nat.div_lt_self (by omega) (by omega)
        exact ih (m / 10) (by omega) c hc
      · subst hc
        exact isDigit_digitChar (Nat.mod_lt _ (by omega))

theorem natDigitsGo_foldl : ∀ fuel m acc, m < fuel →
    List.foldl (fun a c => a * 10 + digitVal c) acc (natDigitsGo fuel m) =
      acc * 10 ^ (natDigitsGo fuel m).length + m := by
  intro fuel
  induction fuel with
  | zero => intro m acc h; omega
  | succ f ih =>
    intro m acc h
    rw [natDigitsGo]
    by_cases h10 : m < 10
    · simp [h10, digitVal_digitChar h10]
    · have hdiv : m / 10 < m := Nat.div_lt_self (by omega) (by omega)
      have hdivf : m / 10 < f := by omega
      simp only [h10, if_false, List.foldl_append, List.length_append, List.foldl_cons,
        List.foldl_nil, List.length_cons, List.length_nil]
      rw [ih (m / 10) acc hdivf, digitVal_digitChar (Nat.mod_lt _ (by omega))]
      have hmod : 10 * (m / 10) + m % 10 = m := Nat.div_add_mod m 10
      have hpow : (10 : Nat) ^ ((natDigitsGo f (m / 10)).length + (0 + 1)) =
          10 ^ (natDigitsGo f (m / 10)).length * 10 := by
        ring
      rw [hpow]
      calc (acc * 10 ^ (natDigitsGo f (m / 10)).length + m / 10) * 10 + m % 10
          = acc * (10 ^ (natDigitsGo f (m / 10)).length * 10) + (10 * (m / 10) + m % 10) := by
            ring
        _ = acc * (10 ^ (natDigitsGo f (m / 10)).length * 10) + m := by rw [hmod]

theorem natDigits_foldl (n : Nat) :
    List.foldl (fun a c => a * 10 + digitVal c) 0 (natDigits n) = n := by
  have := natDigitsGo_foldl (n + 1) n 0 (by omega)
  simpa [natDigits] using this

theorem natDigits_ne_nil (n : Nat) : natDigits n ≠ [] :=
  natDigitsGo_ne_nil (n + 1) n (by omega)

theorem natDigits_digits (n : Nat) : ∀ c ∈ natDigits n, isDigit c = true :=
  natDigitsGo_digits (n + 1) n (by omega)

theorem isDigit_facts {c : Char} (h : isDigit c = true) :
    c ≠ '\x22' ∧ c ≠ '-' ∧ isWs c = false ∧ cleanChar c = true ∧ c ≠ '\\' ∧
      c ≠ ',' ∧ c ≠ '\x7d' := by
  simp [isDigit] at h
  refine ⟨?_, ?_, ?_, ?_, ?_, ?_, ?_⟩
  · intro he; subst he; exact absurd h (by decide)
  · intro he; subst he; exact absurd h (by decide)
  · simp [isWs]; omega
  · simp [cleanChar]
    refine ⟨⟨⟨by omega, by omega⟩, ?_⟩, ?_⟩
    · intro he; subst he; exact absurd h (by decide)
    · intro he; subst he; exact absurd h (by decide)
  · intro he; subst he; exact absurd h (by decide)
  · intro he; subst he; exact absurd h (by decide)
  · intro he; subst he; exact absurd h (by decide)

theorem parseDigitsAcc_append :
    ∀ (s : Str) (acc : Nat) (rest : Str), (∀ c ∈ s, isDigit c = true) →
      noDigitHead rest = true →
      parseDigitsAcc acc (s ++ rest) =
        (List.foldl (fun a c => a * 10 + digitVal c) acc s, rest) := by
  intro s
  induction s with
  | nil =>
    intro acc rest _ hrest
    cases rest with
    | nil => rfl
    | cons c r =>
      simp [noDigitHead] at hrest
      simp [parseDigitsAcc, hrest]
  | cons c t ih =>
    intro acc rest hdig hrest
    have hc : isDigit c = true := hdig c (List.mem_cons_self c t)
    simp only [List.cons_append, parseDigitsAcc, hc, if_true, List.foldl_cons]
    exact ih (acc * 10 + digitVal c) rest (fun x hx => hdig x (List.mem_cons_of_mem c hx)) hrest

theorem parseNat_natDigits (n : Nat) (rest : Str) (h : noDigitHead rest = true) :
    parseNat (natDigits n ++ rest) = some (n, rest) := by
  cases hd : natDigits n with
  | nil => exact absurd hd (natDigits_ne_nil n)
  | cons c t =>
    have hc : isDigit c = true := natDigits_digits n c (hd ▸ List.mem_cons_self c t)
    have ht : ∀ x ∈ t, isDigit x = true := fun x hx =>
      natDigits_digits n x (hd ▸ List.mem_cons_of_mem c hx)
    simp only [List.cons_append, parseNat, hc, if_true]
    rw [parseDigitsAcc_append t (digitVal c) rest ht h]
    have hfold := natDigits_foldl n
    rw [hd, List.foldl_cons] at hfold
    simp only [Nat.zero_mul, Nat.zero_add] at hfold
    rw [hfold]

/-!
## Lemmas: the JSON parser on clean serialized text
-/

theorem skipWs_not_ws {c : Char} (l : Str) (h : isWs c = false) :
    skipWs (c :: l) = c :: l := by
  simp [skipWs, h]

theorem cleanChar_facts {c : Char} (h : cleanChar c = true) :
    c ≠ '\x22' ∧ c ≠ '\\' := by
  simp [cleanChar] at h
  exact ⟨by simpa using h.1.2, by simpa using h.2⟩

theorem parseStringBody_clean :
    ∀ (s : Str) (rest : Str), cleanStr s = true →
      parseStringBody (s ++ '\x22' :: rest) = some (s, rest) := by
  intro s
  induction s with
  | nil =>
    intro rest _
    rw [List.nil_append, parseStringBody.eq_def]
    simp
  | cons c t ih =>
    intro rest hc
    rw [cleanStr, List.all_cons, Bool.and_eq_true] at hc
    obtain ⟨hq, hbs⟩ := cleanChar_facts hc.1
    rw [List.cons_append, parseStringBody.eq_def]
    simp only [hq, hbs, if_false]
    rw [ih rest hc.2]

theorem parseJVal_clean (v : JVal) (rest : Str) (hv : cleanVal v = true)
    (hrest : noDigitHead rest = true) :
    parseJVal (valCleanChars v ++ rest) = some (v, rest) := by
  cases v with
  | jstr s =>
    have hs : cleanStr s = true := by simpa [cleanVal] using hv
    simp only [valCleanChars, List.cons_append, List.append_assoc, List.singleton_append,
      List.nil_append]
    simp only [parseJVal, if_true]
    rw [parseStringBody_clean s rest hs]
    rfl
  | jint n =>
    by_cases hneg : n < 0
    · simp only [valCleanChars, intChars, hneg, if_true, List.cons_append, parseJVal]
      rw [parseNat_natDigits n.natAbs rest hrest]
      show some (jint (-(n.natAbs : Int)), rest) = some (jint n, rest)
      have hnegcast : -(n.natAbs : Int) = n := by omega
      rw [hnegcast]
    · cases hd : natDigits n.natAbs with
      | nil => exact absurd hd (natDigits_ne_nil n.natAbs)
      | cons c t =>
        have hc : isDigit c = true := natDigits_digits n.natAbs c (hd ▸ List.mem_cons_self c t)
        obtain ⟨hq, hdash, _, _, _, _, _⟩ := isDigit_facts hc
        simp only [valCleanChars, intChars, hneg, if_false, hd, List.cons_append, parseJVal]
        rw [if_neg hq, if_neg hdash, if_pos hc]
        have hp : parseNat (c :: (t ++ rest)) = some (n.natAbs, rest) := by
          have hall := parseNat_natDigits n.natAbs rest hrest
          rw [hd] at hall
          simpa using hall
        rw [hp]
        show some (jint ((n.natAbs : Int)), rest) = some (jint n, rest)
        have habs : ((n.natAbs : Int)) = n := by omega
        rw [habs]
  | jbool b =>
    cases b with
    | true =>
      show parseJVal ('t' :: ("rue".data ++ rest)) = some (jbool true, rest)
      simp only [parseJVal]
      rw [if_neg (by decide), if_neg (by decide), if_neg (by decide)]
      rw [if_pos (by simp [leadMatch])]
      simp [leadMatch]
    | false =>
      show parseJVal ('f' :: ("alse".data ++ rest)) = some (jbool false, rest)
      simp only [parseJVal]
      rw [if_neg (by decide), if_neg (by decide), if_neg (by decide)]
      rw [if_neg (by simp [leadMatch]), if_pos (by simp [leadMatch])]
      simp [leadMatch]
  | jnull =>
    show parseJVal ('n' :: ("ull".data ++ rest)) = some (jnull, rest)
    simp only [parseJVal]
    rw [if_neg (by decide), if_neg (by decide), if_neg (by decide)]
    rw [if_neg (by simp [leadMatch]), if_neg (by simp [leadMatch]),
      if_pos (by simp [leadMatch])]
    simp [leadMatch]
  | jbad r => simp [cleanVal] at hv

theorem skipWs_valClean (v : JVal) (hv : cleanVal v = true) (rest : Str) :
    skipWs (valCleanChars v ++ rest) = valCleanChars v ++ rest := by
  cases v with
  | jstr s => exact skipWs_not_ws _ (by decide)
  | jint n =>
    by_cases hneg : n < 0
    · simp only [valCleanChars, intChars, hneg, if_true, List.cons_append]
      exact skipWs_not_ws _ (by decide)
    · cases hd : natDigits n.natAbs with
      | nil => exact absurd hd (natDigits_ne_nil n.natAbs)
      | cons c t =>
        have hc : isDigit c = true := natDigits_digits n.natAbs c (hd ▸ List.mem_cons_self c t)
        simp only [valCleanChars, intChars, hneg, if_false, hd, List.cons_append]
        exact skipWs_not_ws _ (isDigit_facts hc).2.2.1
  | jbool b => cases b <;> exact skipWs_not_ws _ (by decide)
  | jnull => exact skipWs_not_ws _ (by decide)
  | jbad r => simp [cleanVal] at hv

theorem entryCleanChars_length_pos (e : Str × JVal) : 1 ≤ (entryCleanChars e).length := by
  simp [entryCleanChars]

theorem entries_length : ∀ m : List (Str × JVal), m.length ≤ (entriesCleanChars m).length := by
  intro m
  induction m with
  | nil => simp [entriesCleanChars]
  | cons e t ih =>
    cases t with
    | nil =>
      have := entryCleanChars_length_pos e
      simpa [entriesCleanChars] using this
    | cons e2 t2 =>
      have h1 : entriesCleanChars (e :: e2 :: t2) =
          entryCleanChars e ++ ',' :: entriesCleanChars (e2 :: t2) := rfl
      have h2 := entryCleanChars_length_pos e
      rw [h1]
      simp only [List.length_append, List.length_cons]
      simp only [List.length_cons] at ih
      omega

theorem parseEntries_clean :
    ∀ (m : List (Str × JVal)) (fuel : Nat) (rest : Str),
      cleanEntries m = true → m ≠ [] → m.length ≤ fuel →
      parseEntries fuel (entriesCleanChars m ++ '\x7d' :: rest) = some (m, rest) := by
  intro m
  induction m with
  | nil => intro fuel rest _ hne _; exact absurd rfl hne
  | cons kv t ih =>
    intro fuel rest hclean _ hlen
    rw [cleanEntries, List.all_cons, Bool.and_eq_true] at hclean
    obtain ⟨hkv, ht⟩ := hclean
    rw [Bool.and_eq_true] at hkv
    obtain ⟨hk, hv⟩ := hkv
    cases fuel with
    | zero => simp at hlen
    | succ f =>
      cases t with
      | nil =>
        have hshape : entriesCleanChars [kv] ++ '\x7d' :: rest =
            '\x22' :: (kv.1 ++ '\x22' :: ':' :: (valCleanChars kv.2 ++ '\x7d' :: rest)) := by
          simp [entriesCleanChars, entryCleanChars]
        rw [hshape]
        simp only [parseEntries]
        rw [skipWs_not_ws _ (by decide)]
        simp only [if_pos rfl]
        rw [parseStringBody_clean kv.1 _ hk]
        simp only []
        rw [skipWs_not_ws _ (by decide)]
        simp only [if_pos rfl]
        rw [skipWs_valClean kv.2 hv, parseJVal_clean kv.2 ('\x7d' :: rest) hv (by rfl)]
        simp only [if_true]
        rw [skipWs_not_ws _ (by decide)]
        simp
      | cons e2 t2 =>
        have hshape : entriesCleanChars (kv :: e2 :: t2) ++ '\x7d' :: rest =
            '\x22' :: (kv.1 ++ '\x22' :: ':' ::
              (valCleanChars kv.2 ++ ',' :: (entriesCleanChars (e2 :: t2) ++ '\x7d' :: rest))) := by
          simp [entriesCleanChars, entryCleanChars]
        rw [hshape]
        simp only [parseEntries]
        rw [skipWs_not_ws _ (by decide)]
        simp only [if_pos rfl]
        rw [parseStringBody_clean kv.1 _ hk]
        simp only []
        rw [skipWs_not_ws _ (by decide)]
        simp only [if_pos rfl]
        rw [skipWs_valClean kv.2 hv,
          parseJVal_clean kv.2 (',' :: (entriesCleanChars (e2 :: t2) ++ '\x7d' :: rest)) hv
            (by rfl)]
        simp only [if_true]
        rw [skipWs_not_ws _ (by decide)]
        have hlen2 : (e2 :: t2).length ≤ f := by
          simp only [List.length_cons] at hlen ⊢
          omega
        simp [ih f rest ht (List.cons_ne_nil e2 t2) hlen2]

theorem parseObj_clean (m : List (Str × JVal)) (rest : Str) (h : cleanEntries m = true) :
    parseObj (objCleanChars m ++ rest) = some (m, rest) := by
  have hshape : objCleanChars m ++ rest = '\x7b' :: (entriesCleanChars m ++ '\x7d' :: rest) := by
    simp [objCleanChars]
  rw [hshape, parseObj]
  rw [skipWs_not_ws _ (by decide)]
  simp only [if_pos rfl]
  cases m with
  | nil =>
    simp only [entriesCleanChars, List.nil_append]
    rw [skipWs_not_ws _ (by decide)]
    simp
  | cons kv t =>
    have hshape2 : entriesCleanChars (kv :: t) ++ '\x7d' :: rest =
        '\x22' :: ((entriesCleanChars (kv :: t)).tail ++ '\x7d' :: rest) := by
      cases t with
      | nil => simp [entriesCleanChars, entryCleanChars]
      | cons e2 t2 => simp [entriesCleanChars, entryCleanChars]
    rw [hshape2]
    rw [skipWs_not_ws _ (by decide)]
    simp only [if_neg (by decide : ¬('\x22' = '\x7d'))]
    rw [← hshape2]
    have hfuel : (kv :: t).length ≤ (entriesCleanChars (kv :: t) ++ '\x7d' :: rest).length + 1 := by
      have h1 := entries_length (kv :: t)
      simp only [List.length_cons] at h1
      simp only [List.length_append, List.length_cons]
      omega
    exact parseEntries_clean (kv :: t) _ rest h (List.cons_ne_nil kv t) hfuel

theorem noBS_iff (l : Str) : noBS l = true ↔ ∀ c ∈ l, c ≠ '\\' := by
  simp [noBS, List.all_eq_true]

theorem cleanStr_noBS {s : Str} (h : cleanStr s = true) : noBS s = true := by
  rw [cleanStr, List.all_eq_true] at h
  rw [noBS_iff]
  intro c hc
  exact (cleanChar_facts (h c hc)).2

theorem noBS_natDigits (n : Nat) : noBS (natDigits n) = true := by
  rw [noBS_iff]
  intro c hc
  exact (isDigit_facts (natDigits_digits n c hc)).2.2.2.2.1

theorem noBS_valClean (v : JVal) (hv : cleanVal v = true) : noBS (valCleanChars v) = true := by
  rw [noBS_iff]
  intro c hc
  cases v with
  | jstr s =>
    have hs : cleanStr s = true := by simpa [cleanVal] using hv
    rw [cleanStr, List.all_eq_true] at hs
    simp only [valCleanChars, List.mem_append, List.mem_cons, List.mem_singleton,
      List.not_mem_nil, or_false] at hc
    rcases hc with (hc | hc) | hc
    · subst hc; decide
    · exact (cleanChar_facts (hs c hc)).2
    · subst hc; decide
  | jint n =>
    have hd := noBS_natDigits n.natAbs
    rw [noBS_iff] at hd
    by_cases hneg : n < 0
    · simp only [valCleanChars, intChars, hneg, if_true, List.mem_cons] at hc
      rcases hc with hc | hc
      · subst hc; decide
      · exact hd c hc
    · simp only [valCleanChars, intChars, hneg, if_false] at hc
      exact hd c hc
  | jbool b =>
    cases b with
    | true =>
      have hval : valCleanChars (jbool true) = ("true".data) := rfl
      rw [hval] at hc
      simp only [List.mem_cons, List.not_mem_nil, or_false] at hc
      rcases hc with rfl | rfl | rfl | rfl <;> decide
    | false =>
      have hval : valCleanChars (jbool false) = ("false".data) := rfl
      rw [hval] at hc
      simp only [List.mem_cons, List.not_mem_nil, or_false] at hc
      rcases hc with rfl | rfl | rfl | rfl | rfl <;> decide
  | jnull =>
    simp only [valCleanChars, List.mem_cons, List.not_mem_nil, or_false] at hc
    rcases hc with rfl | rfl | rfl | rfl <;> decide
  | jbad r => simp [cleanVal] at hv

theorem noBS_entriesClean : ∀ m : List (Str × JVal), cleanEntries m = true →
    noBS (entriesCleanChars m) = true := by
  intro m
  induction m with
  | nil => intro _; decide
  | cons kv t ih =>
    intro hc
    rw [cleanEntries, List.all_cons, Bool.and_eq_true] at hc
    obtain ⟨hkv, ht⟩ := hc
    rw [Bool.and_eq_true] at hkv
    have hentry : ∀ c ∈ entryCleanChars kv, c ≠ '\\' := by
      have h1 := cleanStr_noBS hkv.1
      have h2 := noBS_valClean kv.2 hkv.2
      rw [noBS_iff] at h1 h2
      intro c hcm
      simp only [entryCleanChars, List.mem_append, List.mem_cons] at hcm
      rcases hcm with (hcm | hcm) | (hcm | hcm | hcm)
      · subst hcm; decide
      · exact h1 c hcm
      · subst hcm; decide
      · subst hcm; decide
      · exact h2 c hcm
    rw [noBS_iff]
    intro c hcm
    cases t with
    | nil =>
      simp only [entriesCleanChars] at hcm
      exact hentry c hcm
    | cons e2 t2 =>
      have hshape : entriesCleanChars (kv :: e2 :: t2) =
          entryCleanChars kv ++ ',' :: entriesCleanChars (e2 :: t2) := rfl
      rw [hshape] at hcm
      have h2 := ih ht
      rw [noBS_iff] at h2
      simp only [List.mem_append, List.mem_cons] at hcm
      rcases hcm with hcm | hcm | hcm
      · exact hentry c hcm
      · subst hcm; decide
      · exact h2 c hcm

theorem noBS_objClean (m : List (Str × JVal)) (h : cleanEntries m = true) :
    noBS (objCleanChars m) = true := by
  have h1 := noBS_entriesClean m h
  rw [noBS_iff] at h1
  rw [noBS_iff]
  intro c hc
  simp only [objCleanChars, List.mem_cons, List.mem_append, List.mem_singleton,
    List.not_mem_nil, or_false] at hc
  rcases hc with (hc | hc) | hc
  · subst hc; decide
  · exact h1 c hc
  · subst hc; decide

/-- Round trip for clean records through `json_string` and a standard JSON
parser: serialization succeeds, the quote-stripping pass is the identity, and
parsing returns exactly the original entries. -/
theorem parseJson_json_string (m : List (Str × JVal)) (h : cleanEntries m = true) :
    parseJson (json_string m) = some m := by
  have hjs : json_string m = objCleanChars m := by
    simp only [json_string, dumpsCompact_clean m h]
    exact stripEscQuotes_of_noBS _ (noBS_objClean m h)
  rw [hjs, parseJson]
  have hobj : objCleanChars m = objCleanChars m ++ [] := by simp
  rw [hobj, parseObj_clean m [] h]
  rfl

/-!
## Lemmas: the structured-record pipeline
-/

theorem dlookup_of_mem_nodup {l : List (Str × JVal)} {k : Str} {v : JVal}
    (hnd : (l.map Prod.fst).Nodup) (hm : (k, v) ∈ l) : dlookup k l = some v := by
  induction l with
  | nil => exact absurd hm (List.not_mem_nil _)
  | cons kv t ih =>
    rw [List.map_cons, List.nodup_cons] at hnd
    rcases List.mem_cons.mp hm with hh | ht
    · subst hh
      simp [dlookup]
    · have hne : kv.1 ≠ k := by
        intro he
        exact hnd.1 (he ▸ List.mem_map_of_mem Prod.fst ht)
    
      simp [dlookup, hne, ih hnd.2 ht]

theorem dlookup_of_not_mem {l : List (Str × JVal)} {k : Str}
    (h : k ∉ l.map Prod.fst) : dlookup k l = none := by
  induction l with
  | nil => rfl
  | cons kv t ih =>
    have hne : kv.1 ≠ k := fun he => h (he ▸ List.mem_map_of_mem Prod.fst (List.mem_cons_self kv t))
    have ht : k ∉ t.map Prod.fst := fun hm => h (by rw [List.map_cons]; exact List.mem_cons_of_mem _ hm)
    simp [dlookup, hne, ih ht]

theorem dropTs_dinsert_ts (d : List (Str × JVal)) (v : JVal) :
    dropTs (dinsert d ("@timestamp".data) v) = dropTs d := by
  induction d with
  | nil => simp [dinsert, dropTs]
  | cons kv t ih =>
    simp only [dropTs] at ih ⊢
    by_cases h : kv.1 = ("@timestamp".data)
    · simp [dinsert, h, List.filter_cons]
    · have hb : (kv.1 == ("@timestamp".data)) = false := by simpa using h
      simp [dinsert, h, List.filter_cons, hb, ih]

theorem dropTs_dinsert_ne (d : List (Str × JVal)) (k : Str) (v : JVal)
    (h : k ≠ ("@timestamp".data)) :
    dropTs (dinsert d k v) = dinsert (dropTs d) k v := by
  have hb : (k == ("@timestamp".data)) = false := by simpa using h
  induction d with
  | nil => simp [dinsert, dropTs, hb]
  | cons kv t ih =>
    simp only [dropTs] at ih ⊢
    by_cases hk : kv.1 = k
    · have hkb : (kv.1 == ("@timestamp".data)) = false := by simpa [hk] using h
      simp [dinsert, hk, List.filter_cons, hb, hkb]
    · by_cases hts : kv.1 = ("@timestamp".data)
      · have hkb : (kv.1 == ("@timestamp".data)) = true := by simpa using hts
        simp [dinsert, hk, List.filter_cons, hkb, ih]
      · have hkb : (kv.1 == ("@timestamp".data)) = false := by simpa using hts
        simp only [dinsert, if_neg hk, List.filter_cons, hkb, Bool.not_false, if_pos rfl]
        rw [ih]
        simp [dinsert, hk]

theorem dlookup_dropTs (d : List (Str × JVal)) (k : Str) (h : k ≠ ("@timestamp".data)) :
    dlookup k (dropTs d) = dlookup k d := by
  induction d with
  | nil => rfl
  | cons kv t ih =>
    simp only [dropTs] at ih ⊢
    by_cases hts : kv.1 = ("@timestamp".data)
    · have hkb : (kv.1 == ("@timestamp".data)) = true := by simpa using hts
      have hne : kv.1 ≠ k := fun he => h (he ▸ hts)
      simp [List.filter_cons, hkb, dlookup, hne, ih]
    · have hkb : (kv.1 == ("@timestamp".data)) = false := by simpa using hts
      by_cases hk : kv.1 = k
      · simp [List.filter_cons, hkb, dlookup, hk, h]
      · simp [List.filter_cons, hkb, dlookup, hk, ih]

theorem dropTs_dinsert_congr {d1 d2 : List (Str × JVal)} (k : Str) (v : JVal)
    (h : dropTs d1 = dropTs d2) :
    dropTs (dinsert d1 k v) = dropTs (dinsert d2 k v) := by
  by_cases hts : k = ("@timestamp".data)
  · subst hts
    rw [dropTs_dinsert_ts, dropTs_dinsert_ts, h]
  · rw [dropTs_dinsert_ne d1 k v hts, dropTs_dinsert_ne d2 k v hts, h]

theorem add_msg_congr (r : LogRecord) {d1 d2 : List (Str × JVal)}
    (h : dropTs d1 = dropTs d2) :
    (add_msg_type_properties d1 r).map dropTs = (add_msg_type_properties d2 r).map dropTs := by
  have htype : dlookup ("type".data) d1 = dlookup ("type".data) d2 := by
    rw [← dlookup_dropTs d1 _ (by decide), ← dlookup_dropTs d2 _ (by decide), h]
  simp only [add_msg_type_properties, htype]
  by_cases h1 : (dlookup ("type".data) d2).getD jnull = jstr ("log".data)
  · rw [if_pos h1, if_pos h1]
    cases hf : r.funcName with
    | none =>
      cases hfn : r.filename with
      | none => simp only [Option.map_some']; rw [h]
      | some fn => simp only [Option.map_some']; rw [dropTs_dinsert_congr _ _ h]
    | some f =>
      cases hfn : r.filename with
      | none => simp only [Option.map_some']; rw [dropTs_dinsert_congr _ _ h]
      | some fn =>
        simp only [Option.map_some']
        rw [dropTs_dinsert_congr _ _ (dropTs_dinsert_congr _ _ h)]
  · rw [if_neg h1, if_neg h1]
    by_cases h2 : (dlookup ("type".data) d2).getD jnull = jstr ("event".data)
    · rw [if_pos h2, if_pos h2]
      cases dlookup ("event_type".data) r.extras with
      | none => rfl
      | some ev => simp only [Option.map_some']; rw [dropTs_dinsert_congr _ _ h]
    · rw [if_neg h2, if_neg h2]
      simp only [Option.map_some']; rw [h]


theorem add_task_congr (ctx : Option Ctx) {d1 d2 : List (Str × JVal)}
    (h : dropTs d1 = dropTs d2) :
    dropTs (add_task_properties d1 ctx) = dropTs (add_task_properties d2 ctx) := by
  cases ctx with
  | none => simpa [add_task_properties] using h
  | some c =>
    simp only [add_task_properties]
    exact dropTs_dinsert_congr _ _ (dropTs_dinsert_congr _ _ h)


theorem dropTs_mergeExtras_congr (fields : List Str) (l : List (Str × JVal)) :
    ∀ {d1 d2 : List (Str × JVal)}, dropTs d1 = dropTs d2 →
      dropTs (mergeExtras fields d1 l) = dropTs (mergeExtras fields d2 l) := by
  induction l with
  | nil => intro d1 d2 h; simpa [mergeExtras] using h
  | cons kv t ih =>
    intro d1 d2 h
    by_cases hf : kv.1 ∈ fields
    · have e1 : mergeExtras fields d1 (kv :: t) = mergeExtras fields d1 t := by
        simp [mergeExtras, hf]
      have e2 : mergeExtras fields d2 (kv :: t) = mergeExtras fields d2 t := by
        simp [mergeExtras, hf]
      rw [e1, e2]
      exact ih h
    · have e1 : mergeExtras fields d1 (kv :: t) =
          mergeExtras fields (dinsert d1 kv.1 kv.2) t := by
        simp [mergeExtras, hf]
      have e2 : mergeExtras fields d2 (kv :: t) =
          mergeExtras fields (dinsert d2 kv.1 kv.2) t := by
        simp [mergeExtras, hf]
      rw [e1, e2]
      exact ih (dropTs_dinsert_congr kv.1 kv.2 h)

theorem map_task_dropTs_congr (ctx : Option Ctx) :
    ∀ {o1 o2 : Option (List (Str × JVal))}, o1.map dropTs = o2.map dropTs →
      (o1.map (fun d => add_task_properties d ctx)).map dropTs =
      (o2.map (fun d => add_task_properties d ctx)).map dropTs := by
  intro o1 o2 h
  cases o1 with
  | none =>
    cases o2 with
    | none => rfl
    | some b => simp at h
  | some a =>
    cases o2 with
    | none => simp at h
    | some b =>
      simp only [Option.map_some'] at h ⊢
      exact congrArg some (add_task_congr ctx (Option.some.inj h))

theorem buildRecordW_dropTs_created (fields : List Str) (ctx : Option Ctx)
    (name levelname module msg : Str) (filename : Option Str) (lineno : Nat)
    (funcName : Option Str) (c1 c2 : Str) (exc stack : Option Str)
    (extras : List (Str × JVal)) :
    (buildRecordW fields ctx
      (LogRecord.mk name levelname module msg filename lineno funcName c1 exc stack extras)).map
        dropTs =
    (buildRecordW fields ctx
      (LogRecord.mk name levelname module msg filename lineno funcName c2 exc stack extras)).map
        dropTs := by
  have hts : (!(("@timestamp".data) == ("@timestamp".data))) = false := by decide
  have hlv : (!(("level".data) == ("@timestamp".data))) = true := by decide
  have hmd : (!(("module".data) == ("@timestamp".data))) = true := by decide
  have hms : (!(("message".data) == ("@timestamp".data))) = true := by decide
  have hty : (!(("type".data) == ("@timestamp".data))) = true := by decide
  have hlg : (!(("logger".data) == ("@timestamp".data))) = true := by decide
  have hbase : dropTs
      [(("@timestamp".data), jstr c1), (("level".data), jstr levelname),
        (("module".data), jstr module),
        (("message".data), jstr (buildMsg (LogRecord.mk name levelname module msg filename
          lineno funcName c1 exc stack extras))),
        (("type".data), recType (LogRecord.mk name levelname module msg filename lineno funcName
          c1 exc stack extras)),
        (("logger".data), jstr name)] = dropTs
      [(("@timestamp".data), jstr c2), (("level".data), jstr levelname),
        (("module".data), jstr module),
        (("message".data), jstr (buildMsg (LogRecord.mk name levelname module msg filename
          lineno funcName c2 exc stack extras))),
        (("type".data), recType (LogRecord.mk name levelname module msg filename lineno funcName
          c2 exc stack extras)),
        (("logger".data), jstr name)] := by
    have hbm : buildMsg (LogRecord.mk name levelname module msg filename lineno funcName c1 exc
        stack extras) = buildMsg (LogRecord.mk name levelname module msg filename lineno funcName
        c2 exc stack extras) := rfl
    have hrt : recType (LogRecord.mk name levelname module msg filename lineno funcName c1 exc
        stack extras) = recType (LogRecord.mk name levelname module msg filename lineno funcName
        c2 exc stack extras) := rfl
    rw [hbm, hrt]
    simp [dropTs, List.filter_cons, hts, hlv, hmd, hms, hty, hlg]
  simp only [buildRecordW]
  exact map_task_dropTs_congr ctx (add_msg_congr _ (dropTs_mergeExtras_congr fields extras hbase))

theorem dlookup_add_msg {d d' : List (Str × JVal)} {r : LogRecord} {k : Str}
    (h : add_msg_type_properties d r = some d')
    (h1 : k ≠ ("function".data)) (h2 : k ≠ ("file".data)) (h3 : k ≠ ("event_type".data)) :
    dlookup k d' = dlookup k d := by
  rw [add_msg_type_properties] at h
  by_cases hl : (dlookup ("type".data) d).getD jnull = jstr ("log".data)
  · rw [if_pos hl] at h
    cases hf : r.funcName with
    | none =>
      cases hfn : r.filename with
      | none =>
        rw [hf, hfn] at h
        simp only [Option.some.injEq] at h
        rw [← h]
      | some fn =>
        rw [hf, hfn] at h
        simp only [Option.some.injEq] at h
        rw [← h, dlookup_dinsert_ne _ _ _ _ (Ne.symm h2)]
    | some f =>
      cases hfn : r.filename with
      | none =>
        rw [hf, hfn] at h
        simp only [Option.some.injEq] at h
        rw [← h, dlookup_dinsert_ne _ _ _ _ (Ne.symm h1)]
      | some fn =>
        rw [hf, hfn] at h
        simp only [Option.some.injEq] at h
        rw [← h, dlookup_dinsert_ne _ _ _ _ (Ne.symm h2),
          dlookup_dinsert_ne _ _ _ _ (Ne.symm h1)]
  · rw [if_neg hl] at h
    by_cases he : (dlookup ("type".data) d).getD jnull = jstr ("event".data)
    · rw [if_pos he] at h
      cases hev : dlookup ("event_type".data) r.extras with
      | none => rw [hev] at h; exact absurd h (by simp)
      | some ev =>
        rw [hev] at h
        simp only [Option.some.injEq] at h
        rw [← h, dlookup_dinsert_ne _ _ _ _ (Ne.symm h3)]
    · rw [if_neg he] at h
      simp only [Option.some.injEq] at h
      rw [← h]

theorem dlookup_add_task {d : List (Str × JVal)} (ctx : Option Ctx) {k : Str}
    (h1 : k ≠ ("request_id".data)) (h2 : k ≠ ("session_id".data)) :
    dlookup k (add_task_properties d ctx) = dlookup k d := by
  cases ctx with
  | none => rfl
  | some c =>
    simp only [add_task_properties]
    rw [dlookup_dinsert_ne _ _ _ _ (Ne.symm h2), dlookup_dinsert_ne _ _ _ _ (Ne.symm h1)]

theorem dlookup_function_add_msg {d d' : List (Str × JVal)} {r : LogRecord} {f : Str}
    (h : add_msg_type_properties d r = some d')
    (hl : (dlookup ("type".data) d).getD jnull = jstr ("log".data))
    (hf : r.funcName = some f) :
    dlookup ("function".data) d' = some (jstr f) := by
  rw [add_msg_type_properties, if_pos hl, hf] at h
  cases hfn : r.filename with
  | none =>
    rw [hfn] at h
    simp only [Option.some.injEq] at h
    rw [← h, dlookup_dinsert_self]
  | some fn =>
    rw [hfn] at h
    simp only [Option.some.injEq] at h
    rw [← h, dlookup_dinsert_ne _ _ _ _ (by decide), dlookup_dinsert_self]

theorem dlookup_type_merged (fields : List Str) (r : LogRecord)
    (base : List (Str × JVal))
    (hbase : dlookup ("type".data) base = some (recType r))
    (hnd : (r.extras.map Prod.fst).Nodup) :
    dlookup ("type".data) (mergeExtras fields base r.extras) = some (recType r) := by
  by_cases hf : ("type".data) ∈ fields
  · rw [dlookup_mergeExtras_skip fields r.extras base _ hf, hbase]
  · by_cases hm : ("type".data) ∈ r.extras.map Prod.fst
    · obtain ⟨kv, hkv, hk⟩ := List.mem_map.mp hm
      have hmem : (("type".data), kv.2) ∈ r.extras := by
        have : kv = (("type".data), kv.2) := by
          rcases kv with ⟨a, b⟩
          simp at hk
          simp [hk]
        rw [← this]
        exact hkv
      have hrt : recType r = kv.2 := by
        rw [recType, dlookup_of_mem_nodup hnd hmem]
        rfl
      rw [dlookup_mergeExtras_mem fields r.extras base _ _ hmem hnd hf, hrt]
    · rw [dlookup_mergeExtras_notmem fields r.extras base _ hm, hbase]

/-!
## Lemmas: emitters and the task store
-/

theorem accessLevel_spec (S : Int) :
    (accessLevel S = INFO ↔ (0 < S ∧ S < 400)) ∧
      (accessLevel S = WARNING ↔ ¬(0 < S ∧ S < 400)) := by
  by_cases h : 0 < S ∧ S < 400 <;> simp [accessLevel, h, INFO, WARNING]

theorem sanic_level_eq {sys : TaskSys} {t : Nat} {now S : Int} {e : EmittedAccess}
    (h : sanic_log_json_post sys t now S = some e) : e.level = accessLevel S := by
  rw [sanic_log_json_post] at h
  cases hm : pyOr (get_context_property sys t ("req_start".data)) (jint (-1)) with
  | jint x =>
    rw [hm] at h
    simp only [Option.some.injEq] at h
    rw [← h]
  | jstr s => rw [hm] at h; exact absurd h (by simp)
  | jbool b => rw [hm] at h; exact absurd h (by simp)
  | jnull => rw [hm] at h; exact absurd h (by simp)
  | jbad r => rw [hm] at h; exact absurd h (by simp)

theorem flat_level_eq {ctx : Option Ctx} {now S : Int} {e : EmittedAccess}
    (h : flat_log_json_post ctx now S = some e) : e.level = accessLevel S := by
  cases ctx with
  | none =>
    simp only [flat_log_json_post.eq_def, Option.some.injEq] at h
    rw [← h]
  | some c =>
    simp only [flat_log_json_post.eq_def] at h
    cases h1 : dlookup ("req_id".data) c with
    | none => rw [h1] at h; exact absurd h (by simp)
    | some rid =>
      cases h2 : dlookup ("req_start".data) c with
      | none => rw [h1, h2] at h; exact absurd h (by simp)
      | some sv =>
        cases sv with
        | jint s =>
          rw [h1, h2] at h
          simp only [Option.some.injEq] at h
          rw [← h]
        | jstr s => rw [h1, h2] at h; exact absurd h (by simp)
        | jbool b => rw [h1, h2] at h; exact absurd h (by simp)
        | jnull => rw [h1, h2] at h; exact absurd h (by simp)
        | jbad r => rw [h1, h2] at h; exact absurd h (by simp)

theorem modAt_get {α : Type} :
    ∀ (l : List α) (r : Nat) (f : α → α), (modAt l r f)[r]? = (l[r]?).map f := by
  intro l
  induction l with
  | nil => intro r f; cases r <;> rfl
  | cons x t ih =>
    intro r f
    cases r with
    | zero => simp [modAt]
    | succ n => simpa [modAt] using ih n f

theorem parseEntries_single_spaced (f : Nat) (k : Str) (v : JVal) (rest : Str)
    (hk : cleanStr k = true) (hv : cleanVal v = true) :
    parseEntries (f + 1)
      ('\x22' :: (k ++ '\x22' :: ':' :: ' ' :: (valCleanChars v ++ '\x7d' :: rest))) =
      some ([(k, v)], rest) := by
  simp only [parseEntries]
  rw [skipWs_not_ws _ (by decide)]
  simp only [if_pos rfl]
  rw [parseStringBody_clean k _ hk]
  simp only []
  rw [skipWs_not_ws _ (by decide)]
  simp only [if_pos rfl]
  have hsp : skipWs (' ' :: (valCleanChars v ++ '\x7d' :: rest)) =
      skipWs (valCleanChars v ++ '\x7d' :: rest) := by
    have hws : isWs ' ' = true := by decide
    simp [skipWs, hws]
  rw [hsp, skipWs_valClean v hv]
  rw [parseJVal_clean v ('\x7d' :: rest) hv (by rfl)]
  simp only [if_true]
  rw [skipWs_not_ws _ (by decide)]
  simp


/-!
## Claims
-/

/-- Claim C1 (corrected): `json_string` never propagates a serialization
failure: whenever compact serialization of the record fails, the returned
text is a minimal JSON object whose single `error` entry carries the text
`Log message not serializabe to json: ` (the source's spelling) followed by
the textual dump of the record — parsing the output with the standard JSON
parser returns exactly that one entry.  (Stated for records whose textual
dump needs no JSON escaping; the output is also subject to the same
escaped-double-quote stripping pass as every `json_string` result, which is
the identity here.) -/
theorem C1_fallback_error_record (m : List (Str × JVal))
    (hfail : dumpsCompact m = none)
    (hclean : cleanStr (pyReprDict m) = true) :
    parseJson (json_string m) =
      some [(("error".data), jstr (errPrefix ++ pyReprDict m))] := by
  have hfull : cleanStr (errPrefix ++ pyReprDict m) = true := by
    rw [cleanStr, List.all_append, Bool.and_eq_true]
    exact ⟨by decide, hclean⟩
  have hek : cleanStr ("error".data) = true := by decide
  have hlit1 := dumpStrLit_clean (fun c hc => cleanChar_escAsciiChar hc) ("error".data) hek
  have hlit2 := dumpStrLit_clean (fun c hc => cleanChar_escAsciiChar hc)
    (errPrefix ++ pyReprDict m) hfull
  have hshape : dumpsDefaultStr ("error".data) (errPrefix ++ pyReprDict m) =
      '\x7b' :: '\x22' :: (("error".data) ++ '\x22' :: ':' :: ' ' ::
        (valCleanChars (jstr (errPrefix ++ pyReprDict m)) ++ '\x7d' :: [])) := by
    rw [dumpsDefaultStr, hlit1, hlit2]
    simp [valCleanChars]
  have hnbs : noBS (dumpsDefaultStr ("error".data) (errPrefix ++ pyReprDict m)) = true := by
    rw [noBS_iff, hshape]
    intro c hc
    have hfull2 : ∀ x ∈ errPrefix ++ pyReprDict m, cleanChar x = true := by
      rw [cleanStr, List.all_eq_true] at hfull
      exact hfull
    have hval : noBS (valCleanChars (jstr (errPrefix ++ pyReprDict m))) = true :=
      noBS_valClean _ (by simpa [cleanVal] using hfull)
    rw [noBS_iff] at hval
    rcases List.mem_cons.mp hc with rfl | hc
    · decide
    rcases List.mem_cons.mp hc with rfl | hc
    · decide
    rcases List.mem_append.mp hc with hc | hc
    · have he : cleanStr ("error".data) = true := by decide
      rw [cleanStr, List.all_eq_true] at he
      exact (cleanChar_facts (he c hc)).2
    rcases List.mem_cons.mp hc with rfl | hc
    · decide
    rcases List.mem_cons.mp hc with rfl | hc
    · decide
    rcases List.mem_cons.mp hc with rfl | hc
    · decide
    rcases List.mem_append.mp hc with hc | hc
    · exact hval c hc
    rcases List.mem_cons.mp hc with rfl | hc
    · decide
    exact absurd hc (List.not_mem_nil c)
  have hstr : json_string m =
      dumpsDefaultStr ("error".data) (errPrefix ++ pyReprDict m) := by
    simp only [json_string, hfail]
    exact stripEscQuotes_of_noBS _ hnbs
  rw [hstr, hshape, parseJson, parseObj]
  rw [skipWs_not_ws _ (by decide)]
  simp only [if_pos rfl]
  rw [skipWs_not_ws _ (by decide)]
  simp only [if_neg (by decide : ¬('\x22' = '\x7d'))]
  rw [parseEntries_single_spaced _ ("error".data) (jstr (errPrefix ++ pyReprDict m)) []
    hek (by simpa [cleanVal] using hfull)]
  rfl

/-- Claim C1 counterexample: on a record with a non-serializable value the
emitted fallback text spells `serializabe`, so the claimed exact shape
`{"error": "Log message not serializable to json: ..."}` is false: the
claimed text is not even a prefix of the output. -/
theorem C1_counterexample :
    json_string badMsg =
      ("\x7b\"error\": \"Log message not serializabe to json: \x7b'x': <object>\x7d\"\x7d".data)
    ∧ leadMatch (json_string badMsg)
        (("\x7b\"error\": \"Log message not serializable".data)) = false := by
  exact ⟨by decide, by decide⟩

/-- Claim C1 witness: the fallback theorem applied to the concrete record
`badMsg`. -/
theorem C1_witness :
    dumpsCompact badMsg = none ∧ cleanStr (pyReprDict badMsg) = true ∧
      parseJson (json_string badMsg) =
        some [(("error".data), jstr (errPrefix ++ pyReprDict badMsg))] :=
  ⟨by decide, by decide, C1_fallback_error_record badMsg (by decide) (by decide)⟩

/-- Claim C2 (corrected): round-trip holds only away from the quote-strip
defect: for every record whose keys and string values consist of printable
ASCII characters other than the double quote and the backslash, parsing the
serialized text with a standard JSON parser yields exactly the original keys
and scalar values. -/
theorem C2_round_trip (m : List (Str × JVal)) (h : cleanEntries m = true) :
    parseJson (json_string m) = some m :=
  parseJson_json_string m h

/-- Claim C2 counterexample: a record whose message value contains double
quotes does not round-trip — the `.replace('\\"','')` pass deletes the
quote characters, so parsing returns a different string. -/
theorem C2_counterexample :
    parseJson (json_string quoteMsg) = some [(("message".data), jstr ("say hi".data))]
    ∧ jstr ("say hi".data) ≠ jstr ['s', 'a', 'y', ' ', '\x22', 'h', 'i', '\x22'] :=
  ⟨by decide, by decide⟩

/-- Claim C2 witness: the round-trip theorem applied to a concrete clean
record with string, integer, boolean and null values. -/
theorem C2_witness :
    cleanEntries [(("a".data), jint 404), (("b".data), jnull), (("c".data), jbool true),
        (("d".data), jstr ("x y".data))] = true
    ∧ parseJson (json_string [(("a".data), jint 404), (("b".data), jnull),
        (("c".data), jbool true), (("d".data), jstr ("x y".data))]) =
      some [(("a".data), jint 404), (("b".data), jnull), (("c".data), jbool true),
        (("d".data), jstr ("x y".data))] :=
  ⟨by decide, C2_round_trip _ (by decide)⟩

/-- Claim C3 (corrected): the health-check filter keys on substring
containment, not equality: a record with a request that has a path is
suppressed exactly when the path contains `/healthz` as a substring; and a
record with no associated request is not delivered untouched — reading
`record.request` raises `AttributeError`. -/
theorem C3_healthz_filter (rec : FilterRecord) :
    (∀ req p, rec.request = some req → req.path = some p →
      (NoHealthzFilter.filter rec = Except.ok false ↔ hasSub p healthzPath = true))
    ∧ (rec.request = none →
      NoHealthzFilter.filter rec = Except.error PyErr.attributeError) := by
  constructor
  · intro req p hreq hp
    simp only [NoHealthzFilter.filter, hreq, hp]
    cases hsub : hasSub p healthzPath
    · simp
    · simp
  · intro hreq
    simp only [NoHealthzFilter.filter, hreq]

/-- Claim C3 counterexample: the request path `/healthz/live` is different
from `/healthz`, yet the filter suppresses the record (returns false). -/
theorem C3_counterexample :
    NoHealthzFilter.filter
        { request := some { path := some ("/healthz/live".data) }, msg := some [] } =
      Except.ok false
    ∧ ("/healthz/live".data) ≠ ("/healthz".data) :=
  ⟨rfl, by decide⟩

/-- Claim C3 witness: the filter theorem applied to a record whose request
path is exactly `/healthz`, and to a record without a request. -/
theorem C3_witness :
    NoHealthzFilter.filter
        { request := some { path := some ("/healthz".data) }, msg := none } = Except.ok false
    ∧ NoHealthzFilter.filter { request := none, msg := none } =
      Except.error PyErr.attributeError :=
  ⟨((C3_healthz_filter { request := some { path := some ("/healthz".data) }, msg := none }).1
      { path := some ("/healthz".data) } ("/healthz".data) rfl rfl).mpr (by decide),
    (C3_healthz_filter { request := none, msg := none }).2 rfl⟩

/-- Claim C4 (corrected): the filters evaluate without raising only when
the attributes they read are present and string-typed; on a record lacking
the `request` attribute the health-check filter raises `AttributeError`, and
on a non-string `msg` either filter raises `TypeError` — the code does not
fail open. -/
theorem C4_filter_totality (rec : FilterRecord) :
    (∀ m, rec.msg = some m →
      KeepAliveTimeoutFilter.filter rec = Except.ok (!(hasSub m keepAliveText)))
    ∧ (rec.msg = none →
      KeepAliveTimeoutFilter.filter rec = Except.error PyErr.typeError)
    ∧ (∀ req p, rec.request = some req → req.path = some p →
      NoHealthzFilter.filter rec = Except.ok (!(hasSub p healthzPath)))
    ∧ (rec.request = none →
      NoHealthzFilter.filter rec = Except.error PyErr.attributeError) := by
  refine ⟨?_, ?_, ?_, ?_⟩
  · intro m hm
    simp only [KeepAliveTimeoutFilter.filter, hm]
  · intro hm
    simp only [KeepAliveTimeoutFilter.filter, hm]
  · intro req p hreq hp
    simp only [NoHealthzFilter.filter, hreq, hp]
  · intro hreq
    simp only [NoHealthzFilter.filter, hreq]

/-- Claim C4 counterexample: an application record (no `request` attribute)
makes the health-check filter raise instead of returning "do not suppress",
and a `None` message makes the keep-alive filter raise. -/
theorem C4_counterexample :
    NoHealthzFilter.filter { request := none, msg := some ("hello".data) } =
      Except.error PyErr.attributeError
    ∧ KeepAliveTimeoutFilter.filter { request := none, msg := none } =
      Except.error PyErr.typeError :=
  ⟨rfl, rfl⟩

/-- Claim C4 witness: the totality theorem applied to a record with a
string message and a request carrying a path. -/
theorem C4_witness :
    KeepAliveTimeoutFilter.filter
        { request := some { path := some ("/a".data) }, msg := some ("ok".data) } =
      Except.ok true :=
  ((C4_filter_totality
      { request := some { path := some ("/a".data) }, msg := some ("ok".data) }).1
    ("ok".data) rfl).trans rfl

/-- Claim C5 (confirmed): `_task_factory` hands the spawned task the
parent's context object itself (the same heap reference, not a copy), so a
property set through `set_context_property` in one child is visible through
`get_context_property` in the parent and in a sibling spawned from the same
parent. -/
theorem C5_context_shared (sys : TaskSys) (p c1 c2 r : Nat) (k : Str) (v : JVal)
    (ctx0 : Ctx) (hp : taskAttr sys p = some (some r)) (hr : sys.store[r]? = some ctx0)
    (h1 : c1 ≠ p) (h2 : c2 ≠ p) (h3 : c2 ≠ c1) :
    taskAttr (_task_factory sys p c1) c1 = some (some r)
    ∧ get_context_property
        (set_context_property (_task_factory (_task_factory sys p c1) p c2) c1 k v) p k =
      some v
    ∧ get_context_property
        (set_context_property (_task_factory (_task_factory sys p c1) p c2) c1 k v) c2 k =
      some v := by
  have hs1 : _task_factory sys p c1 =
      { sys with tasks := (c1, some r) :: sys.tasks } := by
    simp [_task_factory, hp]
  have ha1 : taskAttr (_task_factory sys p c1) c1 = some (some r) := by
    rw [hs1]
    simp [taskAttr, dlookup]
  have hs2 : _task_factory (_task_factory sys p c1) p c2 =
      { sys with tasks := (c2, some r) :: (c1, some r) :: sys.tasks } := by
    rw [hs1]
    have hap : taskAttr { sys with tasks := (c1, some r) :: sys.tasks } p = some (some r) := by
      simp [taskAttr, dlookup, h1]
      exact hp
    simp [_task_factory, hap]
  have hs3c1 : ∀ w : JVal, set_context_property
      { sys with tasks := (c2, some r) :: (c1, some r) :: sys.tasks } c1 k w =
      { store := modAt sys.store r (fun c => dinsert c k w),
        tasks := (c2, some r) :: (c1, some r) :: sys.tasks } := by
    intro w
    have ha : taskAttr { sys with tasks := (c2, some r) :: (c1, some r) :: sys.tasks } c1 =
        some (some r) := by
      simp [taskAttr, dlookup, h3]
    simp [set_context_property, ha]
  have hstore : (modAt sys.store r (fun c => dinsert c k v))[r]? =
      some (dinsert ctx0 k v) := by
    rw [modAt_get, hr]
    rfl
  simp only [taskAttr] at hp
  refine ⟨ha1, ?_, ?_⟩
  · rw [hs2, hs3c1 v]
    simp only [get_context_property, taskAttr, dlookup]
    simp [h1, h2, hp, hstore, dlookup_dinsert_self]
  · rw [hs2, hs3c1 v]
    simp only [get_context_property, taskAttr, dlookup]
    simp [hstore, dlookup_dinsert_self]

/-- Claim C5 witness: the sharing theorem applied to a concrete system with
one root task owning an empty context — the property set through child 1 is
read back both through the parent and through the sibling child 2. -/
theorem C5_witness :
    get_context_property
        (set_context_property
          (_task_factory (_task_factory { store := [[]], tasks := [(0, some 0)] } 0 1) 0 2)
          1 ("session_id".data) (jstr ("s1".data)))
        0 ("session_id".data) = some (jstr ("s1".data))
    ∧ get_context_property
        (set_context_property
          (_task_factory (_task_factory { store := [[]], tasks := [(0, some 0)] } 0 1) 0 2)
          1 ("session_id".data) (jstr ("s1".data)))
        2 ("session_id".data) = some (jstr ("s1".data)) :=
  ⟨(C5_context_shared { store := [[]], tasks := [(0, some 0)] } 0 1 2 0 ("session_id".data)
      (jstr ("s1".data)) [] (by decide) (by decide) (by decide) (by decide) (by decide)).2.1,
    (C5_context_shared { store := [[]], tasks := [(0, some 0)] } 0 1 2 0 ("session_id".data)
      (jstr ("s1".data)) [] (by decide) (by decide) (by decide) (by decide) (by decide)).2.2⟩

/-- Claim C6 (corrected): determinism holds only relative to the formatter's
memoized `LogRecordFields` state: for any fixed memoized field set, two
LogEvents that agree on every field — level, message, module, extras, and
the other record attributes — and differ only in their timestamp produce
structured records that are identical except for the `@timestamp` entry
(with no ambient context).  The output additionally depends on the memoized
set captured from the first record the formatter instance ever formatted, so
it is not a function of the event alone (see the counterexample). -/
theorem C6_deterministic_except_timestamp (fields : List Str)
    (name levelname module msg : Str) (filename : Option Str) (lineno : Nat)
    (funcName : Option Str) (c1 c2 : Str) (exc stack : Option Str)
    (extras : List (Str × JVal)) :
    (buildRecordW fields none
      (LogRecord.mk name levelname module msg filename lineno funcName c1 exc stack
        extras)).map dropTs =
    (buildRecordW fields none
      (LogRecord.mk name levelname module msg filename lineno funcName c2 exc stack
        extras)).map dropTs :=
  buildRecordW_dropTs_created fields none name levelname module msg filename lineno funcName
    c1 c2 exc stack extras

/-- Claim C6 counterexample: the same event formatted at the same timestamp
gives different output texts depending on what the formatter formatted
before — a fresh formatter memoizes the event's own `custom` extra into
`LogRecordFields` and drops it, while a formatter that first saw a plain
record keeps it.  Identical-except-`@timestamp` fails (the timestamps are
equal and the texts differ). -/
theorem C6_counterexample :
    (JSONFormatter.format ((JSONFormatter.format none none plainRec).2) none customRec).1 ≠
      (JSONFormatter.format none none customRec).1 := by
  decide

/-- Claim C7 (code bug): with no ambient context, `log_json_post` of
`src/logger/sanic_logger.py` computes
`time.perf_counter() - (get_context_property('req_start') or -1)`, i.e.
`perf_counter() + 1` — an arbitrary duration — instead of the sentinel `-1`
the spec requires; the request id does fall back to `'unknown'`.  The flat
`src/logger.py` variant implements the intended sentinel. -/
theorem C7_lost_context_elapsed :
    sanic_log_json_post { store := [], tasks := [(7, none)] } 7 100 200 =
      some { req_id := jstr ("unknown".data), time_taken := 101, level := INFO, status := 200 }
    ∧ (101 : Int) ≠ -1
    ∧ flat_log_json_post none 100 200 =
      some { req_id := jstr ("unknown".data), time_taken := -1, level := INFO, status := 200 } :=
  ⟨by decide, by decide, by decide⟩

/-- Claim C8 (corrected): an extra is copied verbatim only when its key is
not in the memoized `LogRecordFields` set, and extras named after canonical
base keys (`@timestamp`, `level`, `logger`, `type`) do overwrite the base
value — only the keys written after the merge (`function`, `file`,
`event_type`, `request_id`, `session_id`) and `message` (whose attribute the
formatter overwrites before the merge and whose name is always memoized)
win over a colliding extra.  Part one: a caller extra whose key avoids the
memoized set and the post-merge keys ends up in the output verbatim,
whatever base key it collides with.  Part two: the canonical `function`
value wins for log-type records. -/
theorem C8_extras_policy (r0 r : LogRecord) (ctx : Option Ctx) (d : List (Str × JVal))
    (hbuild : buildRecordW (computeFields r0) ctx r = some d)
    (hnd : (r.extras.map Prod.fst).Nodup) :
    (∀ k v, (k, v) ∈ r.extras → k ∉ computeFields r0 →
      k ≠ ("function".data) → k ≠ ("file".data) → k ≠ ("event_type".data) →
      k ≠ ("request_id".data) → k ≠ ("session_id".data) →
      dlookup k d = some v)
    ∧ (recType r = jstr ("log".data) → ∀ f, r.funcName = some f →
      dlookup ("function".data) d = some (jstr f)) := by
  simp only [buildRecordW] at hbuild
  cases hm : add_msg_type_properties
      (mergeExtras (computeFields r0)
        [(("@timestamp".data), jstr r.created), (("level".data), jstr r.levelname),
          (("module".data), jstr r.module), (("message".data), jstr (buildMsg r)),
          (("type".data), recType r), (("logger".data), jstr r.name)] r.extras) r with
  | none =>
    rw [hm] at hbuild
    exact absurd hbuild (by simp)
  | some d' =>
    rw [hm] at hbuild
    simp only [Option.map_some', Option.some.injEq] at hbuild
    constructor
    · intro k v hkv hkf h1 h2 h3 h4 h5
      rw [← hbuild, dlookup_add_task ctx h4 h5, dlookup_add_msg hm h1 h2 h3]
      exact dlookup_mergeExtras_mem (computeFields r0) r.extras _ k v hkv hnd hkf
    · intro hrt f hf
      have hbase : dlookup ("type".data)
          [(("@timestamp".data), jstr r.created), (("level".data), jstr r.levelname),
            (("module".data), jstr r.module), (("message".data), jstr (buildMsg r)),
            (("type".data), recType r), (("logger".data), jstr r.name)] = some (recType r) := by
        simp only [dlookup]
        rw [if_neg (by decide), if_neg (by decide), if_neg (by decide), if_neg (by decide)]
        simp
      have htm := dlookup_type_merged (computeFields r0) r _ hbase hnd
      have hl : (dlookup ("type".data)
          (mergeExtras (computeFields r0)
            [(("@timestamp".data), jstr r.created), (("level".data), jstr r.levelname),
              (("module".data), jstr r.module), (("message".data), jstr (buildMsg r)),
              (("type".data), recType r), (("logger".data), jstr r.name)] r.extras)).getD jnull =
          jstr ("log".data) := by
        rw [htm]
        simpa using hrt
      rw [← hbuild, dlookup_add_task ctx (by decide) (by decide)]
      exact dlookup_function_add_msg hm hl hf

/-- Claim C8 counterexample: a caller extra named `logger` overwrites the
canonical `logger` value (the record's logger name) in the final output —
the canonical key does not win. -/
theorem C8_counterexample :
    (buildRecordW (computeFields plainRec) none spoofRec).map (dlookup ("logger".data)) =
      some (some (jstr ("spoof".data)))
    ∧ jstr ("spoof".data) ≠ jstr spoofRec.name :=
  ⟨by decide, by decide⟩

/-- Claim C8 witness: the policy theorem applied to a record with one fresh
extra `foo`; the extra appears verbatim and the canonical `function` value
wins. -/
theorem C8_witness :
    dlookup ("foo".data)
        ((buildRecordW (computeFields plainRec) none
          { plainRec with extras := [(("foo".data), jint 7)] }).getD []) = some (jint 7)
    ∧ dlookup ("function".data)
        ((buildRecordW (computeFields plainRec) none
          { plainRec with extras := [(("foo".data), jint 7)] }).getD []) =
      some (jstr ("main".data)) := by
  have hb : buildRecordW (computeFields plainRec) none
      { plainRec with extras := [(("foo".data), jint 7)] } =
      some ((buildRecordW (computeFields plainRec) none
        { plainRec with extras := [(("foo".data), jint 7)] }).getD []) := by decide
  have h := C8_extras_policy plainRec { plainRec with extras := [(("foo".data), jint 7)] }
    none _ hb (by decide)
  exact ⟨h.1 ("foo".data) (jint 7) (by decide) (by decide) (by decide) (by decide) (by decide)
    (by decide) (by decide), h.2 (by decide) ("main".data) (by decide)⟩

/-- Claim C9 (corrected): when the response carries a materialized body the
`length` field is the body's byte length (and `status_code` is present);
when the response exists but has no materialized body (streaming), `length`
is `-1`; but a websocket record (`response is None`) has type `ws_access`,
omits `status_code`, and omits the `length` key entirely — it is not `-1`. -/
theorem C9_access_length (ctx : Option Ctx) (rec : AccessRecord) :
    (∀ resp n, rec.response = some resp → resp.body_len = some n →
      dlookup ("length".data) (JSONReqFormatter.formatDict ctx rec) = some (jint (n : Int))
      ∧ dlookup ("status_code".data) (JSONReqFormatter.formatDict ctx rec) =
        some (jint resp.status))
    ∧ (∀ resp, rec.response = some resp → resp.body_len = none →
      dlookup ("length".data) (JSONReqFormatter.formatDict ctx rec) = some (jint (-1)))
    ∧ (rec.response = none →
      dlookup ("type".data) (JSONReqFormatter.formatDict ctx rec) =
          some (jstr ("ws_access".data))
        ∧ dlookup ("length".data) (JSONReqFormatter.formatDict ctx rec) = none
        ∧ dlookup ("status_code".data) (JSONReqFormatter.formatDict ctx rec) = none) := by
  refine ⟨?_, ?_, ?_⟩
  · intro resp n hresp hbody
    simp only [JSONReqFormatter.formatDict, hresp, hbody]
    constructor
    · rw [dlookup_add_task ctx (by decide) (by decide), dlookup_dinsert_self]
    · rw [dlookup_add_task ctx (by decide) (by decide),
        dlookup_dinsert_ne _ _ _ _ (by decide), dlookup_dinsert_self]
  · intro resp hresp hbody
    simp only [JSONReqFormatter.formatDict, hresp, hbody]
    rw [dlookup_add_task ctx (by decide) (by decide), dlookup_dinsert_self]
  · intro hresp
    simp only [JSONReqFormatter.formatDict, hresp]
    refine ⟨?_, ?_, ?_⟩
    · rw [dlookup_add_task ctx (by decide) (by decide), dlookup_dinsert_self]
    · rw [dlookup_add_task ctx (by decide) (by decide),
        dlookup_dinsert_ne _ _ _ _ (by decide)]
      simp only [dlookup]
      rw [if_neg (by decide), if_neg (by decide), if_neg (by decide), if_neg (by decide),
        if_neg (by decide), if_neg (by decide), if_neg (by decide), if_neg (by decide),
        if_neg (by decide), if_neg (by decide), if_neg (by decide)]
    · rw [dlookup_add_task ctx (by decide) (by decide),
        dlookup_dinsert_ne _ _ _ _ (by decide)]
      simp only [dlookup]
      rw [if_neg (by decide), if_neg (by decide), if_neg (by decide), if_neg (by decide),
        if_neg (by decide), if_neg (by decide), if_neg (by decide), if_neg (by decide),
        if_neg (by decide), if_neg (by decide), if_neg (by decide)]

/-- Claim C9 counterexample: on a concrete websocket record the `length`
key is absent from the produced dict (not `-1` as claimed), while the type
is `ws_access`. -/
theorem C9_counterexample :
    dlookup ("length".data) (JSONReqFormatter.formatDict none wsRec) = none
    ∧ dlookup ("type".data) (JSONReqFormatter.formatDict none wsRec) =
      some (jstr ("ws_access".data)) :=
  ⟨by decide, by decide⟩

/-- Claim C9 witness: the length theorem applied to the websocket record
and to a materialized-body record. -/
theorem C9_witness :
    dlookup ("length".data)
        (JSONReqFormatter.formatDict none
          { wsRec with response := some { status := 200, body_len := some 5 } }) =
      some (jint 5)
    ∧ dlookup ("status_code".data) (JSONReqFormatter.formatDict none wsRec) = none :=
  ⟨((C9_access_length none
      { wsRec with response := some { status := 200, body_len := some 5 } }).1
      { status := 200, body_len := some 5 } 5 rfl rfl).1,
    ((C9_access_length none wsRec).2.2 rfl).2.2⟩

/-- Claim C10 (confirmed): a completed request with response status `S` is
emitted at level INFO exactly when `0 < S < 400` and at level WARNING
otherwise — in both the package and the flat implementation of
`log_json_post`. -/
theorem C10_access_level (sys : TaskSys) (t : Nat) (now S : Int) (ctx : Option Ctx)
    (e e' : EmittedAccess) :
    (sanic_log_json_post sys t now S = some e →
      ((e.level = INFO ↔ (0 < S ∧ S < 400)) ∧ (e.level = WARNING ↔ ¬(0 < S ∧ S < 400))))
    ∧ (flat_log_json_post ctx now S = some e' →
      ((e'.level = INFO ↔ (0 < S ∧ S < 400)) ∧ (e'.level = WARNING ↔ ¬(0 < S ∧ S < 400)))) := by
  constructor
  · intro h
    rw [sanic_level_eq h]
    exact accessLevel_spec S
  · intro h
    rw [flat_level_eq h]
    exact accessLevel_spec S

/-- Claim C10 witness: the level theorem applied to a concrete 404 response
(WARNING) emitted with no context. -/
theorem C10_witness :
    ({ req_id := jstr ("unknown".data), time_taken := 101, level := WARNING,
        status := 404 } : EmittedAccess).level = WARNING :=
  ((C10_access_level { store := [], tasks := [(7, none)] } 7 100 404 none
      { req_id := jstr ("unknown".data), time_taken := 101, level := WARNING, status := 404 }
      { req_id := jstr ("unknown".data), time_taken := -1, level := WARNING,
        status := 404 }).1 (by decide)).2.mpr (by decide)
